import Mathlib

/-!
Verification development for the Chonker3 layout-reconstruction engine.

The definitions below are a shallow embedding of the Python sources:
  * `chonker2.py` — the Docling-based extractor (`Chonker2._extract_item_data`,
    `Chonker2.extract_to_json` item loop, `Chonker2._detect_columns_and_order`);
  * `simple_extractor.py` — the pypdfium2-based extractor (`extract_pdf_with_fonts`);
  * `enhanced_chonker2.py` — the text merger (`EnhancedChonker2.merge_nearby_text`,
    `EnhancedChonker2.merge_group`).

Numeric coordinates (Python floats) are embedded as rationals `ℚ`; Python
dictionaries with a fixed key set are embedded as structures whose optional
keys are `Option` fields; a duck-typed backend record (`hasattr` probing) is a
structure of `Option` fields.  Python's `sorted` (a stable sort) is embedded
as `List.insertionSort`, which inserts an element *before* the first
not-smaller element of the already sorted suffix and is therefore stable.
-/

namespace Chonker3

/-- Raw bounding box supplied by the conversion backend (the `bbox` object read
at `chonker2.py:262`): fields `l`, `t`, `r`, `b` (always present on a backend
bbox object) and an optional `coord_origin` tag; `getattr(bbox, 'coord_origin',
'BOTTOMLEFT')` defaults the tag. -/
structure RawBBox where
  l : ℚ
  t : ℚ
  r : ℚ
  b : ℚ
  coord_origin : Option String
deriving DecidableEq

/-- Page dimensions optionally hanging off a provenance record
(`prov.page.width` / `prov.page.height`, `chonker2.py:295`). -/
structure PageDims where
  width : ℚ
  height : ℚ
deriving DecidableEq

/-- Optional text-style record on a provenance entry
(`chonker2.py:341-349`): `font_size`, `font_weight`, `font_style`. -/
structure ProvTextStyle where
  font_size : Option ℚ
  font_weight : Option ℚ
  font_style : Option String
deriving DecidableEq

/-- One provenance record (`item.prov[i]`): optional page number, optional raw
bbox, optional page-dimension object, optional text style. -/
structure RawProv where
  page_no : Option ℕ
  bbox : Option RawBBox
  page : Option PageDims
  text_style : Option ProvTextStyle
deriving DecidableEq

/-- Direct style attribute of a backend item (`item.style`, `chonker2.py:319-327`). -/
structure RawStyle where
  font_name : Option String
  font_size : Option ℚ
  bold : Option Bool
  italic : Option Bool
deriving DecidableEq

/-- Alternative style attribute of a backend item (`item.text_style`,
`chonker2.py:330-336`). -/
structure RawTextStyle where
  is_bold : Option Bool
  is_italic : Option Bool
  font_size : Option ℚ
deriving DecidableEq

/-- One raw backend item as consumed by `Chonker2._extract_item_data`:
`type_name` is `type(item).__name__`; every other field is an optional
attribute probed with `hasattr`/`getattr`.  `level_attr` is the item's own
`level` attribute (`getattr(item, 'level', 0)` at `chonker2.py:311`), distinct
from the structural nesting level passed alongside the item. -/
structure RawItem where
  type_name : String
  text : Option String
  caption : Option String
  confidence : Option ℚ
  prov : List RawProv
  style : Option RawStyle
  text_style : Option RawTextStyle
  marker : Option String
  level_attr : Option ℕ
deriving DecidableEq

/-- Relative position ratios (`chonker2.py:299-304`).  Source key names:
`xr` = `x_ratio`, `yr` = `y_ratio`, `wr` = `width_ratio`, `hr` = `height_ratio`. -/
structure BBoxRel where
  xr : ℚ
  yr : ℚ
  wr : ℚ
  hr : ℚ
deriving DecidableEq

/-- Emitted bounding-box record (`item_data['bbox']`, `chonker2.py:281-289`),
with the optional `relative` sub-record of `chonker2.py:299`. -/
structure BBoxOut where
  left : ℚ
  top : ℚ
  right : ℚ
  bottom : ℚ
  width : ℚ
  height : ℚ
  coord_origin : String
  relative : Option BBoxRel
deriving DecidableEq

/-- Emitted style attribute record (`style_info`, `chonker2.py:316-352`). -/
structure StyleOut where
  font : Option String
  font_size : Option ℚ
  bold : Option Bool
  italic : Option Bool
deriving DecidableEq

/-- The open attribute dictionary `item_data['attributes']`: one optional field
per key the source ever writes. -/
structure Attrs where
  form_type : Option String
  checked : Option Bool
  possible_form_field : Option Bool
  field_type : Option String
  header_level : Option ℕ
  marker : Option String
  list_level : Option ℕ
  caption : Option String
  column : Option ℕ
  row_band : Option ℤ
  reading_order : Option ℕ
  style : Option StyleOut
deriving DecidableEq

/-- The empty attribute dictionary (`'attributes': {}`, `chonker2.py:216`). -/
def Attrs.empty : Attrs :=
  ⟨none, none, none, none, none, none, none, none, none, none, none, none⟩

/-- One emitted item record (`item_data`, `chonker2.py:208-217`).  `confidence`
is optional because the pypdfium2 extractor emits items without that key. -/
structure Item where
  index : ℕ
  type : String
  level : ℕ
  content : String
  bbox : Option BBoxOut
  page : ℕ
  confidence : Option ℚ
  attributes : Attrs
deriving DecidableEq

/-- One page record of the output document (`page_info`, `chonker2.py:133-137`,
plus the derived `columns` / `column_boundaries` keys of `chonker2.py:503-504`). -/
structure PageInfo where
  page_number : ℕ
  width : ℚ
  height : ℚ
  columns : Option ℕ
  column_boundaries : Option (List ℚ)
deriving DecidableEq

/-- Python's substring test `needle in hay`. -/
def strContains (hay needle : String) : Bool :=
  decide (needle.toList <:+: hay.toList)

/-- Python's whitespace test used by `str.strip()` (ASCII part). -/
def isPySpace (c : Char) : Bool :=
  c == ' ' || c == '\t' || c == '\n' || c == '\r' || c == '\x0b' || c == '\x0c'

/-- Python's `str.strip()`: drop leading and trailing whitespace. -/
def pyStrip (s : String) : String :=
  ⟨((s.data.dropWhile isPySpace).reverse.dropWhile isPySpace).reverse⟩

/-- Python's `str.lower()` (ASCII case folding). -/
def pyLower (s : String) : String :=
  ⟨s.data.map Char.toLower⟩

/-- Python's `str.endswith(suf)`. -/
def pyEndsWith (s suf : String) : Bool :=
  decide (suf.data <:+ s.data)

/-- Python's string repetition `c * n` for a single character `c`. -/
def pyRepeat (c : Char) (n : ℕ) : String :=
  ⟨List.replicate n c⟩

/-- Python's `int()` applied to a (rational-valued) float: truncation toward
zero. -/
def pyInt (q : ℚ) : ℤ :=
  if q < 0 then ⌈q⌉ else ⌊q⌋

/-- Python's `min` over a nonempty sequence (0 is a placeholder for the empty
case, in which the Python raises `ValueError`; no caller reaches it). -/
def pyMinQ : List ℚ → ℚ
  | [] => 0
  | x :: xs => xs.foldl min x

/-- Python's `max` over a nonempty sequence (same caveat as `pyMinQ`). -/
def pyMaxQ : List ℚ → ℚ
  | [] => 0
  | x :: xs => xs.foldl max x

/-- The checkbox glyph set of `chonker2.py:235`. -/
def checkboxGlyphs : List String :=
  ["[ ]", "[X]", "[x]", "☐", "☑", "□", "■", "▢", "▣"]

/-- The checked-state glyph subset of `chonker2.py:237`. -/
def checkedGlyphs : List String :=
  ["[X]", "[x]", "☑", "■", "▣"]

/-- The form-field indicator substrings of `chonker2.py:240-243`. -/
def formIndicators : List String :=
  ["name:", "date:", "address:", "phone:", "email:", "signature:",
   "id:", "no.", "number:", "title:", "ssn:", "dob:", "zip:"]

/-- The form-detection rules of `chonker2.py:226-250`: given the incoming type
tag and the raw content, return the (possibly overridden) type tag and the
updated attributes.  Rules fire on the whitespace-stripped content, first
match wins. -/
def classifyStep (ty : String) (content0 : String) (a : Attrs) : String × Attrs :=
  let content := pyStrip content0
  let content_lower := pyLower content
  if pyEndsWith content ":" then
    ("FormLabel", { a with form_type := some "label" })
  else if checkboxGlyphs.contains content then
    ("Checkbox", { a with checked := some (checkedGlyphs.contains content) })
  else if formIndicators.any (fun ind => strContains content_lower ind) then
    ("FormLabel", { a with possible_form_field := some true })
  else if content == pyRepeat '_' content.length || content == pyRepeat '-' content.length then
    ("FormField", { a with field_type := some "text_input" })
  else
    (ty, a)

/-- Content extraction of `chonker2.py:220-223`: `item.text` if present, else
`item.caption`, else the empty string the record started with. -/
def rawContent (it : RawItem) : String :=
  match it.text with
  | some t => t
  | none =>
    match it.caption with
    | some c => c
    | none => ""

/-- The coordinate-origin tag with its `getattr` default (`chonker2.py:273`). -/
def declaredOrigin (bbox : RawBBox) : String :=
  bbox.coord_origin.getD "BOTTOMLEFT"

/-- The declared-origin validity check of `chonker2.py:270-278`: bottom-left
boxes need `right > left and top > bottom`, anything else needs
`right > left and bottom > top`. -/
def validBBoxB (bbox : RawBBox) : Bool :=
  if strContains (declaredOrigin bbox) "BOTTOMLEFT" then
    decide (bbox.r > bbox.l ∧ bbox.t > bbox.b)
  else
    decide (bbox.r > bbox.l ∧ bbox.b > bbox.t)

/-- Spatial extraction, `chonker2.py:252-304`: page number, bbox validation
against the declared coordinate origin, and the relative-ratio sub-record.
Returns `none` exactly when the Python raises: at `chonker2.py:299` the code
subscripts `item_data['bbox']` while it is still `None` (invalid bbox but page
dimensions present), a `TypeError` caught by the handler at
`chonker2.py:356` which discards the whole item. -/
def extractSpatial (it : RawItem) : Option (Option ℕ × Option BBoxOut) :=
  match it.prov with
  | [] => some (none, none)
  | prov :: _ =>
    let pg := prov.page_no
    match prov.bbox with
    | none => some (pg, none)
    | some bbox =>
      let co := declaredOrigin bbox
      let valid_bbox : Bool := validBBoxB bbox
      let bb : Option BBoxOut :=
        if valid_bbox then
          some { left := bbox.l, top := bbox.t, right := bbox.r, bottom := bbox.b,
                 width := bbox.r - bbox.l, height := |bbox.t - bbox.b|,
                 coord_origin := co, relative := none }
        else none
      match prov.page with
      | none => some (pg, bb)
      | some dims =>
        match bb with
        | none => none
        | some bb0 =>
          let pw := if dims.width > 0 then dims.width else 612
          let ph := if dims.height > 0 then dims.height else 792
          let rel : BBoxRel :=
            { xr := bbox.l / pw, yr := bbox.t / ph,
              wr := (bbox.r - bbox.l) / pw, hr := (bbox.b - bbox.t) / ph }
          some (pg, some { bb0 with relative := some rel })

/-- Header level, `Chonker2._get_header_level` (`chonker2.py:429-433`). -/
def getHeaderLevel (level : ℕ) : ℕ :=
  min (level + 1) 6

/-- Type-specific attributes, `chonker2.py:306-313` (keyed on the *original*
backend type name, before any form-detection override). -/
def typeSpecificAttrs (it : RawItem) (level : ℕ) (a : Attrs) : Attrs :=
  if it.type_name = "SectionHeaderItem" then
    { a with header_level := some (getHeaderLevel level) }
  else if it.type_name = "ListItem" then
    { a with marker := some (it.marker.getD ""), list_level := some (it.level_attr.getD 0) }
  else if it.type_name = "FigureItem" then
    { a with caption := some (it.caption.getD "") }
  else a

/-- Style extraction from `item.style` then `item.text_style`
(`chonker2.py:316-336`); the `text_style` fields overwrite when present. -/
def styleDirect (it : RawItem) : StyleOut :=
  let s1 : StyleOut :=
    match it.style with
    | none => ⟨none, none, none, none⟩
    | some st => ⟨st.font_name, st.font_size, st.bold, st.italic⟩
  match it.text_style with
  | none => s1
  | some ts =>
    { s1 with bold := ts.is_bold.or s1.bold,
              italic := ts.is_italic.or s1.italic,
              font_size := ts.font_size.or s1.font_size }

/-- One step of the provenance style loop (`chonker2.py:339-349`): each field
is filled only if not already set. -/
def styleProvStep (s : StyleOut) (p : RawProv) : StyleOut :=
  match p.text_style with
  | none => s
  | some ts =>
    let fs : Option ℚ :=
      match s.font_size, ts.font_size with
      | none, some v => some v
      | old, _ => old
    let bd : Option Bool :=
      match s.bold, ts.font_weight with
      | none, some w => some (decide (w > 400))
      | old, _ => old
    let it : Option Bool :=
      match s.italic, ts.font_style with
      | none, some fsty => some (fsty == "italic")
      | old, _ => old
    { s with font_size := fs, bold := bd, italic := it }

/-- The provenance style loop folded over all provenance records. -/
def styleFromProvs (ps : List RawProv) (s : StyleOut) : StyleOut :=
  ps.foldl styleProvStep s

/-- Truthiness of the `style_info` dictionary (`if style_info:`,
`chonker2.py:351`): nonempty iff some key was written. -/
def StyleOut.isEmptyB (s : StyleOut) : Bool :=
  s.font.isNone && s.font_size.isNone && s.bold.isNone && s.italic.isNone

/-- `Chonker2._extract_item_data` (`chonker2.py:198-358`): build one emitted
item from a raw backend item; `none` models the broad `except` at
`chonker2.py:356` (log a warning, return `None`). -/
def extractItemData (it : RawItem) (level : ℕ) (index : ℕ) : Option Item :=
  match extractSpatial it with
  | none => none
  | some (pg, bb) =>
    let content := rawContent it
    let ta := classifyStep it.type_name content Attrs.empty
    let a2 := typeSpecificAttrs it level ta.2
    let s := styleFromProvs it.prov (styleDirect it)
    let a3 := if s.isEmptyB then a2 else { a2 with style := some s }
    some { index := index, type := ta.1, level := level, content := content,
           bbox := bb, page := pg.getD 0, confidence := some (it.confidence.getD 1),
           attributes := a3 }

/-- The item loop of `Chonker2.extract_to_json` (`chonker2.py:149-169`): items
whose extraction returned `None` are skipped and do not advance the running
`item_index`. -/
def extractItems : List (RawItem × ℕ) → ℕ → List Item
  | [], _ => []
  | (r, lvl) :: rest, idx =>
    match extractItemData r lvl idx with
    | none => extractItems rest idx
    | some d => d :: extractItems rest (idx + 1)

/-- Left edge of an item's bbox (0 when absent; column detection only reads it
on items that carry a bbox). -/
def itemLeft (i : Item) : ℚ :=
  (i.bbox.map (·.left)).getD 0

/-- The fixed column-gap threshold (`column_threshold = 50`, `chonker2.py:458`). -/
def columnThreshold : ℚ := 50

/-- The gap scan of `chonker2.py:460-463` over the ascending x-position list:
for every adjacent pair with gap strictly above the threshold, record the pair
`(midpoint, gap size)`. -/
def gapsScan : List ℚ → List (ℚ × ℚ)
  | a :: b :: rest =>
    (if b - a > columnThreshold then [(a + (b - a) / 2, b - a)] else [])
      ++ gapsScan (b :: rest)
  | _ => []

/-- The per-page gap list: items with a bbox, their sorted left edges, then the
gap scan; pages with fewer than 5 bbox-carrying items yield no gaps
(`chonker2.py:446-463`). -/
def pageGaps (pageItems : List Item) : List (ℚ × ℚ) :=
  let wb := pageItems.filter (fun i => i.bbox.isSome)
  if wb.length < 5 then []
  else gapsScan (List.insertionSort (· ≤ ·) (wb.map itemLeft))

/-- The column-interval lookup of `chonker2.py:477-480`: the boundary list is
`[0, b₁, …, bₖ]` followed by a `+∞` sentinel, so the last interval is
right-unbounded; the scan returns the first interval containing `x` and the
Python leaves the `column` attribute unset when no interval matches
(possible only for `x` below the first boundary). -/
def findCol (x : ℚ) : List ℚ → ℕ → Option ℕ
  | [], _ => none
  | [b], k => if b ≤ x then some k else none
  | b1 :: b2 :: rest, k =>
    if b1 ≤ x ∧ x < b2 then some k else findCol x (b2 :: rest) (k + 1)

/-- The fixed row height estimate (`row_height_estimate = 20`, `chonker2.py:484`). -/
def rowHeightEstimate : ℚ := 20

/-- `int(item['bbox']['top'] / row_height_estimate)` (`chonker2.py:487`). -/
def bandOf (bb : BBoxOut) : ℤ :=
  pyInt (bb.top / rowHeightEstimate)

/-- The column/row-band attribute update applied to every bbox-carrying item of
a page with detected columns (`chonker2.py:473-487`). -/
def colRowUpdate (bs : List ℚ) (i : Item) : Item :=
  match i.bbox with
  | none => i
  | some bb =>
    let i1 :=
      match findCol bb.left bs 0 with
      | some c => { i with attributes := { i.attributes with column := some c } }
      | none => i
    { i1 with attributes := { i1.attributes with row_band := some (bandOf bb) } }

/-- The sort key `(row_band, column)` of `chonker2.py:490-493`, with the
`.get(…, 0)` defaults, compared lexicographically as Python compares tuples.
The relation is stated on position-tagged items so that the stable sort can be
traced back to each item's original position. -/
def roLe (a b : ℕ × Item) : Prop :=
  a.2.attributes.row_band.getD 0 < b.2.attributes.row_band.getD 0 ∨
    (a.2.attributes.row_band.getD 0 = b.2.attributes.row_band.getD 0 ∧
      a.2.attributes.column.getD 0 ≤ b.2.attributes.column.getD 0)

instance : DecidableRel roLe := fun a b => by unfold roLe; exact inferInstance

instance : IsTotal (ℕ × Item) roLe :=
  ⟨fun a b => by
    unfold roLe
    rcases lt_trichotomy (a.2.attributes.row_band.getD 0) (b.2.attributes.row_band.getD 0)
      with h | h | h
    · exact Or.inl (Or.inl h)
    · rcases le_total (a.2.attributes.column.getD 0) (b.2.attributes.column.getD 0) with h2 | h2
      · exact Or.inl (Or.inr ⟨h, h2⟩)
      · exact Or.inr (Or.inr ⟨h.symm, h2⟩)
    · exact Or.inr (Or.inl h)⟩

instance : IsTrans (ℕ × Item) roLe :=
  ⟨fun a b c hab hbc => by
    unfold roLe at *
    rcases hab with h1 | ⟨h1, h1'⟩ <;> rcases hbc with h2 | ⟨h2, h2'⟩
    · exact Or.inl (h1.trans h2)
    · exact Or.inl (h2 ▸ h1)
    · exact Or.inl (h1 ▸ h2)
    · exact Or.inr ⟨h1.trans h2, h1'.trans h2'⟩⟩

/-- The stable sort of the page's bbox-carrying (position, item) pairs by
`(row_band, column)` (`chonker2.py:490-493`), positions taken in the page's
item order. -/
def sortedPairs (updated : List Item) : List (ℕ × Item) :=
  List.insertionSort roLe ((updated.enum).filter (fun q => q.2.bbox.isSome))

/-- `reading_order` assignment (`chonker2.py:496-497`): each bbox-carrying
item receives its rank in the stable `(row_band, column)` sort; everything
else is left untouched (items stay in their original page order — the Python
sorts a local list of references and mutates the dictionaries in place). -/
def assignReadingOrder (updated : List Item) : List Item :=
  let sp := sortedPairs updated
  (updated.enum).map (fun q =>
    if q.2.bbox.isSome then
      match sp.findIdx? (fun s => s.1 == q.1) with
      | some k => { q.2 with attributes := { q.2.attributes with reading_order := some k } }
      | none => q.2
    else q.2)

/-- The finite boundary list `[0, b₁, …, bₖ]` built at `chonker2.py:468-469`
(the `+∞` sentinel is treated by `findCol` as the open end of the last
interval). -/
def pageBoundaries (pageItems : List Item) : List ℚ :=
  0 :: (pageGaps pageItems).map Prod.fst

/-- The page's items after the column / row-band attribute pass. -/
def updatedItems (pageItems : List Item) : List Item :=
  pageItems.map (colRowUpdate (pageBoundaries pageItems))

/-- `Chonker2._detect_columns_and_order` restricted to one page's item list
(`chonker2.py:442-497`): with at least 5 bbox-carrying items and a nonempty
gap list, assign `column` and `row_band` to every bbox-carrying item, then
`reading_order` as the item's rank in the stable `(row_band, column)` sort. -/
def detectColumnsPage (pageItems : List Item) : List Item :=
  let wb := pageItems.filter (fun i => i.bbox.isSome)
  if wb.length < 5 then pageItems
  else
    let gaps := gapsScan (List.insertionSort (· ≤ ·) (wb.map itemLeft))
    if gaps.isEmpty then pageItems
    else assignReadingOrder (pageItems.map (colRowUpdate (0 :: gaps.map Prod.fst)))

/-- The page-metadata update of `chonker2.py:499-504`: when the page's gap
list is nonempty and `page_no` is below the page-list length, the record *at
list index `page_no`* receives the column count `len(gaps) + 1` and the
boundary list `[0, b₁, …, bₖ]` (the trailing `+∞` sentinel of
`column_boundaries[:-1]` excluded). -/
def updatePageMeta (pages : List PageInfo) (page_no : ℕ) (pageItems : List Item) :
    List PageInfo :=
  let gaps := pageGaps pageItems
  if gaps.isEmpty then pages
  else if h : page_no < pages.length then
    pages.set page_no
      { pages.get ⟨page_no, h⟩ with
        columns := some (gaps.length + 1),
        column_boundaries := some (0 :: gaps.map Prod.fst) }
  else pages

/-- The default page list of `chonker2.py:117-146` when the backend supplies
page objects without usable attributes (or dictionary keys are enumerated):
`page_number` is the 1-based position, dimensions default to US Letter. -/
def defaultPages (n : ℕ) : List PageInfo :=
  (List.range n).map (fun i => ⟨i + 1, 612, 792, none, none⟩)

/-- The item construction of `simple_extractor.py:84-113` given the combined
rectangle bounds of one text line: PDF bottom-left coordinates are flipped to
top-left screen coordinates against the page height, the `coord_origin` tag
is the literal `"TOPLEFT"`, and the simple form detection of lines 107-110
overrides the type. -/
def simpleExtractorItem (index : ℕ) (line : String) (page_num : ℕ)
    (height left bottom right top : ℚ) : Item :=
  let ty :=
    if pyEndsWith line ":" then "FormLabel"
    else if (["[ ]", "[X]", "[x]", "☐", "☑"] : List String).contains line then "Checkbox"
    else "TextItem"
  { index := index, type := ty, level := 1, content := line,
    bbox := some { left := left, top := height - top, right := right,
                   bottom := height - bottom, width := right - left,
                   height := top - bottom, coord_origin := "TOPLEFT", relative := none },
    page := page_num + 1, confidence := none,
    attributes := { Attrs.empty with
      style := some ⟨none, some 12, none, none⟩ } }

/-- Top of an item's bbox with the dictionary default
`x.get('bbox', {}).get('top', 0)` of `enhanced_chonker2.py:147`. -/
def topD (i : Item) : ℚ :=
  (i.bbox.map (·.top)).getD 0

/-- Left edge with the same dictionary default (`enhanced_chonker2.py:148`). -/
def leftD (i : Item) : ℚ :=
  (i.bbox.map (·.left)).getD 0

/-- Right edge of an item's bbox (read as `last_item['bbox']['right']` at
`enhanced_chonker2.py:164`, only on items known to carry a bbox). -/
def rightD (i : Item) : ℚ :=
  (i.bbox.map (·.right)).getD 0

/-- The merger's sort key `(page, -top, left)` (`enhanced_chonker2.py:145-149`)
as a lexicographic order: pages ascending, tops descending, lefts ascending. -/
def mergeKeyLe (a b : Item) : Prop :=
  a.page < b.page ∨
    (a.page = b.page ∧ (topD b < topD a ∨ (topD a = topD b ∧ leftD a ≤ leftD b)))

instance : DecidableRel mergeKeyLe := fun a b => by unfold mergeKeyLe; exact inferInstance

instance : IsTotal Item mergeKeyLe :=
  ⟨fun a b => by
    unfold mergeKeyLe
    rcases lt_trichotomy a.page b.page with h | h | h
    · exact Or.inl (Or.inl h)
    · rcases lt_trichotomy (topD a) (topD b) with h2 | h2 | h2
      · exact Or.inr (Or.inr ⟨h.symm, Or.inl h2⟩)
      · rcases le_total (leftD a) (leftD b) with h3 | h3
        · exact Or.inl (Or.inr ⟨h, Or.inr ⟨h2, h3⟩⟩)
        · exact Or.inr (Or.inr ⟨h.symm, Or.inr ⟨h2.symm, h3⟩⟩)
      · exact Or.inl (Or.inr ⟨h, Or.inl h2⟩)
    · exact Or.inr (Or.inl h)⟩

instance : IsTrans Item mergeKeyLe :=
  ⟨fun a b c hab hbc => by
    unfold mergeKeyLe at *
    rcases hab with h1 | ⟨h1, h1'⟩
    · rcases hbc with h2 | ⟨h2, _⟩
      · exact Or.inl (h1.trans h2)
      · exact Or.inl (h2 ▸ h1)
    · rcases hbc with h2 | ⟨h2, h2'⟩
      · exact Or.inl (h1 ▸ h2)
      · refine Or.inr ⟨h1.trans h2, ?_⟩
        rcases h1' with h3 | ⟨h3, h3'⟩
        · rcases h2' with h4 | ⟨h4, _⟩
          · exact Or.inl (h4.trans h3)
          · exact Or.inl (h4 ▸ h3)
        · rcases h2' with h4 | ⟨h4, h4'⟩
          · exact Or.inl (h3 ▸ h4)
          · exact Or.inr ⟨h3.trans h4, h3'.trans h4'⟩⟩

/-- The merge decision of `enhanced_chonker2.py:159-167`: same page, both
bboxes present, vertical top distance below 5, horizontal gap from the
previous item's right edge in `[0, thr)`. -/
def joinable (lastIt item : Item) (thr : ℚ) : Bool :=
  (item.page == lastIt.page) && item.bbox.isSome && lastIt.bbox.isSome &&
    decide (|topD item - topD lastIt| < 5) &&
    decide (0 ≤ leftD item - rightD lastIt ∧ leftD item - rightD lastIt < thr)

/-- The grouping walk of `enhanced_chonker2.py:151-188` over the sorted item
list: the current group is carried in reverse (`lst` is its last member), a
joinable item extends it, anything else closes it and starts a new group. -/
def walkRev (thr : ℚ) : Item → List Item → List Item → List (List Item)
  | lst, grev, [] => [(lst :: grev).reverse]
  | lst, grev, item :: rest =>
    if joinable lst item thr then walkRev thr item (lst :: grev) rest
    else (lst :: grev).reverse :: walkRev thr item [] rest

/-- The groups formed by the walk (`current_group` snapshots, in order). -/
def splitGroups (thr : ℚ) : List Item → List (List Item)
  | [] => []
  | x :: xs => walkRev thr x [] xs

/-- `EnhancedChonker2.merge_group` (`enhanced_chonker2.py:192-216`) for a
group with first member `first`: contents joined by single spaces, bbox the
union over the members that carry one, everything else copied from the first
member. -/
def mergeGroup1 (first : Item) (rest : List Item) : Item :=
  let group := first :: rest
  let content := String.intercalate " " (group.map (·.content))
  let boxes := group.filterMap (·.bbox)
  let lft := pyMinQ (boxes.map (·.left))
  let rgt := pyMaxQ (boxes.map (·.right))
  let tp := pyMaxQ (boxes.map (·.top))
  let bt := pyMinQ (boxes.map (·.bottom))
  let bb : BBoxOut :=
    { left := lft, top := tp, right := rgt, bottom := bt,
      width := rgt - lft, height := |tp - bt|,
      coord_origin := (first.bbox.map (·.coord_origin)).getD "BOTTOMLEFT",
      relative := none }
  { first with content := content, bbox := some bb }

/-- Group emission (`enhanced_chonker2.py:170-188`): singleton groups pass
through unchanged, larger groups are merged; the empty group never occurs. -/
def emitGroup : List Item → List Item
  | [] => []
  | [x] => [x]
  | first :: b :: rest => [mergeGroup1 first (b :: rest)]

/-- `EnhancedChonker2.merge_nearby_text` (`enhanced_chonker2.py:139-190`) with
merge threshold `thr`: empty input passes through; otherwise sort by
`(page, -top, left)` (stable), split into groups, emit each group. -/
def mergeNearbyText (thr : ℚ) (items : List Item) : List Item :=
  if items.isEmpty then items
  else ((splitGroups thr (List.insertionSort mergeKeyLe items)).map emitGroup).flatten

/-- The merger at its default threshold (`merge_threshold=20`,
`enhanced_chonker2.py:139`), as invoked by `extract_to_json`
(`enhanced_chonker2.py:245`). -/
def mergeNearby (items : List Item) : List Item :=
  mergeNearbyText 20 items

/-! Concrete backend records used as test inputs. -/

/-- A raw item with a valid bottom-left-origin bbox and no page-dimension
object on its provenance. -/
def rawBLValid : RawItem :=
  { type_name := "TextItem", text := some "hello", caption := none, confidence := none,
    prov := [{ page_no := some 1,
               bbox := some { l := 0, t := 50, r := 10, b := 40,
                              coord_origin := some "BOTTOMLEFT" },
               page := none, text_style := none }],
    style := none, text_style := none, marker := none, level_attr := none }

/-- A raw item whose bottom-left-origin bbox has `top = 10 < bottom = 50`
(invalid) and whose provenance also carries page dimensions, so the
relative-ratio block subscripts the absent bbox and raises. -/
def rawDropped : RawItem :=
  { type_name := "TextItem", text := some "oops", caption := none, confidence := none,
    prov := [{ page_no := some 1,
               bbox := some { l := 0, t := 10, r := 10, b := 50,
                              coord_origin := some "BOTTOMLEFT" },
               page := some { width := 612, height := 792 }, text_style := none }],
    style := none, text_style := none, marker := none, level_attr := none }

/-- The same invalid bbox as `rawDropped` but with no page-dimension object,
so the item survives with `bbox = None`. -/
def rawKept : RawItem :=
  { type_name := "TextItem", text := some "oops", caption := none, confidence := none,
    prov := [{ page_no := some 1,
               bbox := some { l := 0, t := 10, r := 10, b := 50,
                              coord_origin := some "BOTTOMLEFT" },
               page := none, text_style := none }],
    style := none, text_style := none, marker := none, level_attr := none }

/-- A raw item with a valid bbox whose provenance carries page dimensions with
`width = 0` (non-positive). -/
def rawC9zero : RawItem :=
  { type_name := "TextItem", text := some "hello", caption := none, confidence := none,
    prov := [{ page_no := some 1,
               bbox := some { l := 0, t := 50, r := 10, b := 40,
                              coord_origin := some "BOTTOMLEFT" },
               page := some { width := 0, height := 792 }, text_style := none }],
    style := none, text_style := none, marker := none, level_attr := none }

/-- A raw item with a valid bbox and ordinary positive page dimensions. -/
def rawC9std : RawItem :=
  { type_name := "TextItem", text := some "hello", caption := none, confidence := none,
    prov := [{ page_no := some 1,
               bbox := some { l := 0, t := 50, r := 10, b := 40,
                              coord_origin := some "BOTTOMLEFT" },
               page := some { width := 612, height := 792 }, text_style := none }],
    style := none, text_style := none, marker := none, level_attr := none }

/-- C10: an item whose content trims to the empty string is classified as
`FormField` with attribute `field_type = "text_input"`: the empty string ends
with no colon, is no checkbox glyph, contains no form indicator, and equals
the empty character repetition, so the repeated-underscore rule fires
vacuously. -/
theorem classifier_empty_content (ty content : String) (a : Attrs)
    (h : pyStrip content = "") :
    classifyStep ty content a = ("FormField", { a with field_type := some "text_input" }) := by
  unfold classifyStep
  rw [h]
  simp +decide [checkboxGlyphs, formIndicators, strContains, pyRepeat, pyLower, pyEndsWith]

/-- Witness for `classifier_empty_content` at the one-space string. -/
theorem classifier_empty_content_witness :
    pyStrip " " = "" ∧ classifyStep "TextItem" " " Attrs.empty
      = ("FormField", { Attrs.empty with field_type := some "text_input" }) :=
  ⟨by decide, classifier_empty_content "TextItem" " " Attrs.empty (by decide)⟩

/-- C1 counterexample: running the Docling-based extractor on a valid
bottom-left-origin box retains the bbox with `coord_origin = "BOTTOMLEFT"` and
the unflipped vertical coordinate, so a retained bbox is not always in
canonical top-left form. -/
theorem bbox_origin_counterexample :
    ((extractItemData rawBLValid 1 0).bind (fun d => d.bbox)).map (fun bb => bb.coord_origin)
        = some "BOTTOMLEFT" ∧
    ((extractItemData rawBLValid 1 0).bind (fun d => d.bbox)).map (fun bb => bb.top)
        = some 50 ∧
    ("BOTTOMLEFT" : String) ≠ "TOPLEFT" := by
  refine ⟨?_, ?_, by decide⟩ <;>
    norm_num [rawBLValid, extractItemData, extractSpatial, declaredOrigin, validBBoxB,
      strContains, rawContent, classifyStep, typeSpecificAttrs, styleDirect,
      styleFromProvs, styleProvStep, StyleOut.isEmptyB, Attrs.empty,
      checkboxGlyphs, checkedGlyphs, formIndicators, pyRepeat, pyStrip, pyLower,
      pyEndsWith, isPySpace]

/-- C1 (amended): only the pypdfium2 extractor normalizes to canonical
top-left form — it emits `coord_origin = "TOPLEFT"` with the vertical
coordinates flipped against the page height; the Docling-based extractor keeps
the source's declared `coord_origin` tag and its unflipped coordinates on
every retained bbox. -/
theorem bbox_origin_handling :
    (∀ (index : ℕ) (line : String) (page_num : ℕ) (hgt lft bot rgt top : ℚ),
      (simpleExtractorItem index line page_num hgt lft bot rgt top).bbox =
        some { left := lft, top := hgt - top, right := rgt, bottom := hgt - bot,
               width := rgt - lft, height := top - bot,
               coord_origin := "TOPLEFT", relative := none })
    ∧
    (∀ (it : RawItem) (p : RawProv) (ps : List RawProv) (bbox : RawBBox) (lvl idx : ℕ),
      it.prov = p :: ps → p.bbox = some bbox → validBBoxB bbox = true →
      ∃ bb : BBoxOut, (extractItemData it lvl idx).bind (fun d => d.bbox) = some bb ∧
        bb.coord_origin = declaredOrigin bbox ∧ bb.left = bbox.l ∧ bb.top = bbox.t ∧
        bb.right = bbox.r ∧ bb.bottom = bbox.b ∧
        bb.width = bbox.r - bbox.l ∧ bb.height = |bbox.t - bbox.b|) := by
  constructor
  · intro index line page_num hgt lft bot rgt top
    simp [simpleExtractorItem]
  · intro it p ps bbox lvl idx h1 h2 hv
    unfold extractItemData extractSpatial
    rw [h1]
    cases hpage : p.page with
    | none =>
      refine ⟨{ left := bbox.l, top := bbox.t, right := bbox.r, bottom := bbox.b,
                width := bbox.r - bbox.l, height := |bbox.t - bbox.b|,
                coord_origin := declaredOrigin bbox, relative := none },
        by simp [h2, hpage, hv], rfl, rfl, rfl, rfl, rfl, rfl, rfl⟩
    | some dims =>
      refine ⟨{ left := bbox.l, top := bbox.t, right := bbox.r, bottom := bbox.b,
                width := bbox.r - bbox.l, height := |bbox.t - bbox.b|,
                coord_origin := declaredOrigin bbox,
                relative := some ⟨bbox.l / (if dims.width > 0 then dims.width else 612),
                  bbox.t / (if dims.height > 0 then dims.height else 792),
                  (bbox.r - bbox.l) / (if dims.width > 0 then dims.width else 612),
                  (bbox.b - bbox.t) / (if dims.height > 0 then dims.height else 792)⟩ },
        by simp [h2, hpage, hv], rfl, rfl, rfl, rfl, rfl, rfl, rfl⟩

/-- Witness for `bbox_origin_handling`: the simple extractor's flip at a
concrete line, and the Docling extractor's retained tag and coordinates at a
provenance without and at one with page dimensions. -/
theorem bbox_origin_handling_witness :
    (simpleExtractorItem 0 "x" 0 792 10 700 20 710).bbox =
      some { left := 10, top := 82, right := 20, bottom := 92, width := 10,
             height := 10, coord_origin := "TOPLEFT", relative := none } ∧
    ((extractItemData rawBLValid 1 0).bind (fun d => d.bbox)).map
        (fun bb => (bb.coord_origin, bb.top, bb.bottom)) = some ("BOTTOMLEFT", 50, 40) ∧
    ((extractItemData rawC9std 1 0).bind (fun d => d.bbox)).map
        (fun bb => (bb.coord_origin, bb.top, bb.bottom)) = some ("BOTTOMLEFT", 50, 40) := by
  refine ⟨?_, ?_, ?_⟩
  · have h := bbox_origin_handling.1 0 "x" 0 792 10 700 20 710
    rw [h]
    norm_num
  · obtain ⟨bb, heq, hco, hl, ht, hr, hb, hw, hh⟩ := bbox_origin_handling.2 rawBLValid
      ⟨some 1, some ⟨0, 50, 10, 40, some "BOTTOMLEFT"⟩, none, none⟩ []
      ⟨0, 50, 10, 40, some "BOTTOMLEFT"⟩ 1 0 rfl rfl (by decide)
    rw [heq]
    simp only [Option.map_some']
    rw [hco, ht, hb]
    rfl
  · obtain ⟨bb, heq, hco, hl, ht, hr, hb, hw, hh⟩ := bbox_origin_handling.2 rawC9std
      ⟨some 1, some ⟨0, 50, 10, 40, some "BOTTOMLEFT"⟩, some ⟨612, 792⟩, none⟩ []
      ⟨0, 50, 10, 40, some "BOTTOMLEFT"⟩ 1 0 rfl rfl (by decide)
    rw [heq]
    simp only [Option.map_some']
    rw [hco, ht, hb]
    rfl

/-- An item record whose extraction raises returns `None`. -/
theorem rawDropped_extract_none : extractItemData rawDropped 1 0 = none := by
  norm_num [rawDropped, extractItemData, extractSpatial, declaredOrigin, validBBoxB,
    strContains]

/-- C2 counterexample: an item whose field derivation raises (invalid bbox
plus page dimensions on the provenance) does not appear in the output at all,
rather than appearing with partially derived fields. -/
theorem failed_item_dropped_counterexample :
    extractItemData rawDropped 1 0 = none ∧ extractItems [(rawDropped, 1)] 0 = [] := by
  refine ⟨rawDropped_extract_none, ?_⟩
  rw [extractItems, rawDropped_extract_none]
  rfl

/-- C2 (amended): an exception while deriving an item's fields results in a
warning and the item being omitted from the output entirely; the remaining
items are still processed with the running index unchanged, so a single
item's failure never aborts the whole document. -/
theorem failed_item_dropped (r : RawItem) (lvl : ℕ) (rest : List (RawItem × ℕ)) (idx : ℕ)
    (h : extractItemData r lvl idx = none) :
    extractItems ((r, lvl) :: rest) idx = extractItems rest idx := by
  rw [extractItems, h]

/-- Witness for `failed_item_dropped` at a concrete failing record followed by
a concrete surviving record. -/
theorem failed_item_dropped_witness :
    extractItems [(rawDropped, 1), (rawBLValid, 1)] 0 = extractItems [(rawBLValid, 1)] 0 :=
  failed_item_dropped rawDropped 1 [(rawBLValid, 1)] 0 rawDropped_extract_none

/-- C3 counterexample: an item whose bottom-left-origin bbox has
`top = 10 < bottom = 50` fails the validity check, yet when the provenance
also carries page dimensions the item is dropped from the output instead of
being retained with `bbox = None`. -/
theorem invalid_bbox_counterexample :
    validBBoxB ⟨0, 10, 10, 50, some "BOTTOMLEFT"⟩ = false ∧
    extractItemData rawDropped 1 0 = none := by
  exact ⟨by decide, rawDropped_extract_none⟩

/-- C3 (amended): an item whose bbox fails the declared-origin validity check
is kept with `bbox = None` (after a warning) provided the provenance carries
no page-dimension object; when page dimensions are present, the subsequent
relative-ratio computation subscripts the absent bbox, raises, and the whole
item is dropped. -/
theorem invalid_bbox_item_kept (it : RawItem) (p : RawProv) (ps : List RawProv)
    (bbox : RawBBox) (lvl idx : ℕ)
    (h1 : it.prov = p :: ps) (h2 : p.bbox = some bbox) (h3 : p.page = none)
    (hv : validBBoxB bbox = false) :
    (extractItemData it lvl idx).map (fun d => d.bbox) = some none := by
  unfold extractItemData extractSpatial
  rw [h1]
  simp [h2, h3, hv]

/-- Witness for `invalid_bbox_item_kept`: the claim's own example box
(`top = 10, bottom = 50`, bottom-left origin) on a provenance without page
dimensions: the item survives with `bbox = None`. -/
theorem invalid_bbox_item_kept_witness :
    (extractItemData rawKept 1 0).map (fun d => d.bbox) = some none :=
  invalid_bbox_item_kept rawKept
    ⟨some 1, some ⟨0, 10, 10, 50, some "BOTTOMLEFT"⟩, none, none⟩ []
    ⟨0, 10, 10, 50, some "BOTTOMLEFT"⟩ 1 0 rfl rfl rfl (by decide)

/-- C9 counterexample: with page dimensions known but `width = 0`
(non-positive), the retained bbox still carries relative ratios — computed
against the substituted default width 612 — and its `height_ratio`
(`hr`) is negative for this valid bottom-left box, contradicting both the
omission rule and non-negativity. -/
theorem relative_ratio_counterexample :
    ((extractItemData rawC9zero 1 0).bind (fun d => d.bbox)).map (fun bb => bb.relative)
      = some (some { xr := 0, yr := 50 / 792, wr := 10 / 612, hr := -(10 / 792) }) ∧
    (-(10 / 792) : ℚ) < 0 := by
  constructor
  · norm_num [rawC9zero, extractItemData, extractSpatial, declaredOrigin, validBBoxB,
      strContains, rawContent, classifyStep, typeSpecificAttrs, styleDirect,
      styleFromProvs, styleProvStep, StyleOut.isEmptyB, Attrs.empty,
      checkboxGlyphs, checkedGlyphs, formIndicators, pyRepeat, pyStrip, pyLower,
      pyEndsWith, isPySpace]
  · norm_num

/-- C9 (amended): on a retained bbox, relative ratios are attached iff the
provenance carries a page-dimension object; non-positive dimensions are
replaced by the defaults 612 and 792 rather than suppressing the ratios, and
`height_ratio` is `(bottom - top) / page_height` (negative for valid
bottom-left-origin boxes). -/
theorem relative_ratio_attachment (it : RawItem) (p : RawProv) (ps : List RawProv)
    (bbox : RawBBox) (lvl idx : ℕ)
    (h1 : it.prov = p :: ps) (h2 : p.bbox = some bbox)
    (hv : validBBoxB bbox = true) :
    (∀ dims : PageDims, p.page = some dims →
      ((extractItemData it lvl idx).bind (fun d => d.bbox)).map (fun bb => bb.relative) =
        some (some
          { xr := bbox.l / (if dims.width > 0 then dims.width else 612),
            yr := bbox.t / (if dims.height > 0 then dims.height else 792),
            wr := (bbox.r - bbox.l) / (if dims.width > 0 then dims.width else 612),
            hr := (bbox.b - bbox.t) / (if dims.height > 0 then dims.height else 792) }))
    ∧
    (p.page = none →
      ((extractItemData it lvl idx).bind (fun d => d.bbox)).map (fun bb => bb.relative) =
        some none) := by
  constructor
  · intro dims hdims
    unfold extractItemData extractSpatial
    rw [h1]
    simp [h2, hdims, hv]
  · intro hnone
    unfold extractItemData extractSpatial
    rw [h1]
    simp [h2, hnone, hv]

/-- Witness for `relative_ratio_attachment`: ratios present with ordinary
positive page dimensions, and absent without a page-dimension object. -/
theorem relative_ratio_attachment_witness :
    ((extractItemData rawC9std 1 0).bind (fun d => d.bbox)).map (fun bb => bb.relative) =
      some (some { xr := 0, yr := 50 / 792, wr := 10 / 612, hr := -(10 / 792) }) ∧
    ((extractItemData rawBLValid 1 0).bind (fun d => d.bbox)).map (fun bb => bb.relative) =
      some none := by
  constructor
  · have h := (relative_ratio_attachment rawC9std
      ⟨some 1, some ⟨0, 50, 10, 40, some "BOTTOMLEFT"⟩, some ⟨612, 792⟩, none⟩ []
      ⟨0, 50, 10, 40, some "BOTTOMLEFT"⟩ 1 0 rfl rfl (by decide)).1 ⟨612, 792⟩ rfl
    rw [h]
    norm_num
  · have h := (relative_ratio_attachment rawBLValid
      ⟨some 1, some ⟨0, 50, 10, 40, some "BOTTOMLEFT"⟩, none, none⟩ []
      ⟨0, 50, 10, 40, some "BOTTOMLEFT"⟩ 1 0 rfl rfl (by decide)).2 rfl
    rw [h]

/-- A minimal item with a valid top-left bbox, for concrete pipeline runs. -/
def mkItem (idx pg : ℕ) (lft top rgt bot : ℚ) : Item :=
  { index := idx, type := "TextItem", level := 1, content := "t",
    bbox := some { left := lft, top := top, right := rgt, bottom := bot,
                   width := rgt - lft, height := |top - bot|,
                   coord_origin := "TOPLEFT", relative := none },
    page := pg, confidence := some 1, attributes := Attrs.empty }

/-- Six items on one page with left edges `[10, 15, 20, 300, 305, 310]`. -/
def ex4Items : List Item :=
  [mkItem 0 1 10 100 12 90, mkItem 1 1 15 100 17 90, mkItem 2 1 20 100 22 90,
   mkItem 3 1 300 100 302 90, mkItem 4 1 305 100 307 90, mkItem 5 1 310 100 312 90]

/-- The gap list of the six-item example page: one boundary at 160, gap 280. -/
theorem ex4_gaps : pageGaps ex4Items = [(160, 280)] := by
  norm_num [ex4Items, mkItem, pageGaps, itemLeft, gapsScan, columnThreshold,
    List.insertionSort, List.orderedInsert, Attrs.empty]

/-- The gap scan characterized over adjacent pairs of the (sorted) position
list: a pair contributes iff its gap strictly exceeds the threshold, and the
contribution is the pair of the gap midpoint and the gap size. -/
theorem gapsScan_eq_zip (xs : List ℚ) :
    gapsScan xs = (xs.zip xs.tail).filterMap
      (fun p => if p.2 - p.1 > columnThreshold
        then some (p.1 + (p.2 - p.1) / 2, p.2 - p.1) else none) := by
  induction xs with
  | nil => rfl
  | cons a t ih =>
    cases t with
    | nil => rfl
    | cons b r =>
      rw [gapsScan, ih]
      simp only [List.tail_cons, List.zip_cons_cons, List.filterMap_cons]
      by_cases h : b - a > columnThreshold
      · simp [h]
      · simp [h]

/-- C4: column detection sorts the bbox-carrying items' left edges, records a
boundary at the midpoint of every adjacent gap strictly above 50 units
(characterized over adjacent pairs of the sorted list), reports `k + 1`
columns for `k` recorded boundaries, skips pages with fewer than 5
bbox-carrying items, and on left edges `[10, 15, 20, 300, 305, 310]` yields
exactly 2 columns with the single boundary at 160. -/
theorem column_detection :
    (∀ pageItems : List Item,
      5 ≤ (pageItems.filter (fun i => i.bbox.isSome)).length →
      pageGaps pageItems =
        (let xs := List.insertionSort (· ≤ ·)
          ((pageItems.filter (fun i => i.bbox.isSome)).map itemLeft)
         (xs.zip xs.tail).filterMap
          (fun p => if p.2 - p.1 > columnThreshold
            then some (p.1 + (p.2 - p.1) / 2, p.2 - p.1) else none)))
    ∧
    (∀ pageItems : List Item,
      (pageItems.filter (fun i => i.bbox.isSome)).length < 5 →
      pageGaps pageItems = [] ∧ detectColumnsPage pageItems = pageItems)
    ∧
    (∀ (pages : List PageInfo) (pno : ℕ) (its : List Item),
      pno < pages.length → pageGaps its ≠ [] →
      ((updatePageMeta pages pno its)[pno]?).map (fun r => r.columns) =
        some (some ((pageGaps its).length + 1)))
    ∧
    (pageGaps ex4Items = [(160, 280)] ∧
      (updatePageMeta (defaultPages 1) 0 ex4Items)[0]? =
        some ⟨1, 612, 792, some 2, some [0, 160]⟩) := by
  refine ⟨?_, ?_, ?_, ex4_gaps, ?_⟩
  · intro pageItems h5
    rw [pageGaps]
    simp only [if_neg (by omega : ¬ (pageItems.filter (fun i => i.bbox.isSome)).length < 5)]
    exact gapsScan_eq_zip _
  · intro pageItems h5
    constructor
    · rw [pageGaps]
      simp [if_pos h5]
    · rw [detectColumnsPage]
      simp [if_pos h5]
  · intro pages pno its hlt hg
    rw [updatePageMeta]
    simp only [if_neg (by simp [hg] : ¬ (pageGaps its).isEmpty = true)]
    rw [dif_pos hlt]
    rw [List.getElem?_set_self (by simpa using hlt)]
    simp
  · rw [updatePageMeta]
    rw [ex4_gaps]
    norm_num [defaultPages, List.range_succ]

/-- Witness for `column_detection`: the conjuncts applied at concrete pages. -/
theorem column_detection_witness :
    pageGaps [mkItem 0 1 10 100 12 90] = [] ∧
    detectColumnsPage [mkItem 0 1 10 100 12 90] = [mkItem 0 1 10 100 12 90] ∧
    ((updatePageMeta (defaultPages 2) 0 ex4Items)[0]?).map (fun r => r.columns) =
      some (some 2) ∧
    5 ≤ (ex4Items.filter (fun i => i.bbox.isSome)).length := by
  have h5 : ([mkItem 0 1 10 100 12 90].filter (fun i => i.bbox.isSome)).length < 5 := by
    norm_num [mkItem]
  have h6 : 5 ≤ (ex4Items.filter (fun i => i.bbox.isSome)).length := by
    norm_num [ex4Items, mkItem]
  have hc := column_detection.2.1 [mkItem 0 1 10 100 12 90] h5
  have hm := column_detection.2.2.1 (defaultPages 2) 0 ex4Items
    (by norm_num [defaultPages]) (by rw [ex4_gaps]; simp)
  refine ⟨hc.1, hc.2, ?_, h6⟩
  rw [hm, ex4_gaps]
  norm_num

/-- C8 counterexample: a two-page document whose items live on page 1 (so the
detector runs with `page_no = 1`): the page record numbered 1 receives
nothing, while the record numbered 2 — at list index 1 — receives the column
count and boundary list, so the metadata does not land on the record of the
same page. -/
theorem page_meta_update_counterexample :
    (updatePageMeta (defaultPages 2) 1 ex4Items)[0]? = some ⟨1, 612, 792, none, none⟩ ∧
    (updatePageMeta (defaultPages 2) 1 ex4Items)[1]? = some ⟨2, 612, 792, some 2, some [0, 160]⟩ := by
  rw [updatePageMeta, ex4_gaps]
  norm_num [defaultPages, List.range_succ]

/-- C8 (amended): when the detector records `k ≥ 1` boundaries for the items
grouped under key `page_no`, the page record *at list index `page_no`* — under
the sequential 1-based numbering of the page list, the record of page
`page_no + 1` — receives the column count `k + 1` and the boundary list
`[0, b₁, …, bₖ]` (sentinel excluded); this happens only when
`page_no < len(pages)`, every other record is unchanged, and when
`page_no ≥ len(pages)` (in particular for items keyed to the last page under
1-based provenance numbering) no record is updated at all. -/
theorem page_meta_update (pages : List PageInfo) (pno : ℕ) (its : List Item)
    (hg : pageGaps its ≠ []) :
    (pno < pages.length →
      (updatePageMeta pages pno its)[pno]? =
        (pages[pno]?).map (fun r =>
          { r with columns := some ((pageGaps its).length + 1),
                   column_boundaries := some (0 :: (pageGaps its).map Prod.fst) }))
    ∧ (∀ j, j ≠ pno → (updatePageMeta pages pno its)[j]? = pages[j]?)
    ∧ (pages.length ≤ pno → updatePageMeta pages pno its = pages) := by
  have hne : ¬ (pageGaps its).isEmpty = true := by simp [hg]
  refine ⟨?_, ?_, ?_⟩
  · intro hlt
    rw [updatePageMeta]
    simp only [if_neg hne]
    rw [dif_pos hlt, List.getElem?_set_self (by simpa using hlt),
      List.getElem?_eq_getElem hlt]
    simp
  · intro j hj
    rw [updatePageMeta]
    simp only [if_neg hne]
    by_cases hlt : pno < pages.length
    · rw [dif_pos hlt, List.getElem?_set_ne (fun h => hj h.symm)]
    · rw [dif_neg hlt]
  · intro hge
    rw [updatePageMeta]
    simp only [if_neg hne]
    rw [dif_neg (by omega)]

/-- Witness for `page_meta_update` on the concrete two-page document. -/
theorem page_meta_update_witness :
    (updatePageMeta (defaultPages 2) 1 ex4Items)[1]? =
      ((defaultPages 2)[1]?).map (fun r =>
        { r with columns := some 2, column_boundaries := some [0, 160] }) ∧
    (updatePageMeta (defaultPages 2) 1 ex4Items)[0]? = (defaultPages 2)[0]? ∧
    updatePageMeta (defaultPages 2) 2 ex4Items = defaultPages 2 := by
  have hg : pageGaps ex4Items ≠ [] := by rw [ex4_gaps]; simp
  have h := page_meta_update (defaultPages 2) 1 ex4Items hg
  have h2 := page_meta_update (defaultPages 2) 2 ex4Items hg
  refine ⟨?_, h.2.1 0 (by omega), h2.2.2 (by norm_num [defaultPages])⟩
  have := h.1 (by norm_num [defaultPages])
  rw [this, ex4_gaps]
  norm_num

/-- A `mkItem` variant with explicit content. -/
def mkTextItem (idx pg : ℕ) (content : String) (lft top rgt bot : ℚ) : Item :=
  { mkItem idx pg lft top rgt bot with content := content }

/-- The first item of the merge example: "Invoice", page 1, `left=0, right=50,
top=100`. -/
def invoiceIt : Item := mkTextItem 0 1 "Invoice" 0 100 50 90

/-- The second item of the merge example: "Number", page 1, `left=55, right=90,
top=100`. -/
def numberIt : Item := mkTextItem 1 1 "Number" 55 100 90 90

/-- The expected merge result: one item with content "Invoice Number" and the
union bbox `left=0, right=90, top=100`. -/
def invoiceNumberIt : Item :=
  { invoiceIt with content := "Invoice Number",
                   bbox := some ⟨0, 100, 90, 90, 90, 10, "TOPLEFT", none⟩ }

/-- C6: an item joins the current group iff it shares the page with the
group's last member, both carry bboxes, the tops differ by less than 5 units
and the horizontal gap from the last member's right edge lies in `[0, 20)`;
a merged group carries the space-joined contents and the union bbox with all
other fields copied from the first member; and the two-item "Invoice" /
"Number" example merges into one item with content "Invoice Number" and bbox
`left=0, right=90, top=100`. -/
theorem text_merger :
    (∀ a b : Item, joinable a b 20 = true ↔
      (b.page = a.page ∧ ∃ (ba bb2 : BBoxOut), a.bbox = some ba ∧ b.bbox = some bb2 ∧
        |bb2.top - ba.top| < 5 ∧ 0 ≤ bb2.left - ba.right ∧ bb2.left - ba.right < 20))
    ∧
    (∀ (first : Item) (rest : List Item),
      (mergeGroup1 first rest).content =
        String.intercalate " " ((first :: rest).map (fun i => i.content)) ∧
      (mergeGroup1 first rest).bbox = some
        { left := pyMinQ (((first :: rest).filterMap (fun i => i.bbox)).map (fun b => b.left)),
          top := pyMaxQ (((first :: rest).filterMap (fun i => i.bbox)).map (fun b => b.top)),
          right := pyMaxQ (((first :: rest).filterMap (fun i => i.bbox)).map (fun b => b.right)),
          bottom := pyMinQ (((first :: rest).filterMap (fun i => i.bbox)).map (fun b => b.bottom)),
          width := pyMaxQ (((first :: rest).filterMap (fun i => i.bbox)).map (fun b => b.right))
            - pyMinQ (((first :: rest).filterMap (fun i => i.bbox)).map (fun b => b.left)),
          height := abs (pyMaxQ (((first :: rest).filterMap (fun i => i.bbox)).map (fun b => b.top))
            - pyMinQ (((first :: rest).filterMap (fun i => i.bbox)).map (fun b => b.bottom))),
          coord_origin := (first.bbox.map (fun b => b.coord_origin)).getD "BOTTOMLEFT",
          relative := none } ∧
      (mergeGroup1 first rest).index = first.index ∧
      (mergeGroup1 first rest).type = first.type ∧
      (mergeGroup1 first rest).level = first.level ∧
      (mergeGroup1 first rest).page = first.page ∧
      (mergeGroup1 first rest).confidence = first.confidence ∧
      (mergeGroup1 first rest).attributes = first.attributes)
    ∧
    mergeNearby [invoiceIt, numberIt] = [invoiceNumberIt] := by
  refine ⟨?_, ?_, ?_⟩
  · intro a b
    constructor
    · intro h
      simp only [joinable, Bool.and_eq_true, beq_iff_eq, decide_eq_true_eq] at h
      obtain ⟨⟨⟨⟨hpage, hb⟩, ha⟩, hv⟩, hh1, hh2⟩ := h
      obtain ⟨bb2, hb2⟩ := Option.isSome_iff_exists.mp hb
      obtain ⟨ba, ha2⟩ := Option.isSome_iff_exists.mp ha
      refine ⟨hpage, ba, bb2, ha2, hb2, ?_, ?_, ?_⟩
      · simpa [topD, ha2, hb2] using hv
      · simpa [leftD, rightD, ha2, hb2] using hh1
      · simpa [leftD, rightD, ha2, hb2] using hh2
    · rintro ⟨hpage, ba, bb2, ha2, hb2, hv, hh1, hh2⟩
      simp only [joinable, Bool.and_eq_true, beq_iff_eq, decide_eq_true_eq]
      exact ⟨⟨⟨⟨hpage, by simp [hb2]⟩, by simp [ha2]⟩,
        by simpa [topD, ha2, hb2] using hv⟩,
        by simpa [leftD, rightD, ha2, hb2] using hh1,
        by simpa [leftD, rightD, ha2, hb2] using hh2⟩
  · intro first rest
    refine ⟨rfl, rfl, rfl, rfl, rfl, rfl, rfl, rfl⟩
  · have hint : String.intercalate " " ["Invoice", "Number"] = "Invoice Number" := by decide
    norm_num [mergeNearby, mergeNearbyText, List.insertionSort, List.orderedInsert,
      mergeKeyLe, topD, leftD, rightD, splitGroups, walkRev, joinable, emitGroup,
      mergeGroup1, pyMinQ, pyMaxQ, invoiceIt, numberIt, invoiceNumberIt, mkItem,
      mkTextItem, Attrs.empty, hint, List.filterMap_cons, List.filterMap_nil]

/-- Witness for `text_merger`: the join criterion applied at the example pair. -/
theorem text_merger_witness :
    joinable invoiceIt numberIt 20 = true := by
  rw [text_merger.1 invoiceIt numberIt]
  refine ⟨rfl, ⟨0, 100, 50, 90, 50, 10, "TOPLEFT", none⟩,
    ⟨55, 100, 90, 90, 35, 10, "TOPLEFT", none⟩, ?_, ?_, by norm_num, by norm_num, by norm_num⟩
  · norm_num [invoiceIt, mkTextItem, mkItem]
  · norm_num [numberIt, mkTextItem, mkItem]

/-! Helper lemmas for the reading-order pass. -/

/-- The column / row-band pass never touches the bbox. -/
theorem colRowUpdate_bbox (bs : List ℚ) (i : Item) :
    (colRowUpdate bs i).bbox = i.bbox := by
  unfold colRowUpdate
  cases h : i.bbox with
  | none => simp [h]
  | some bb => cases hf : findCol bb.left bs 0 <;> simp [h, hf]

/-- The column / row-band pass writes `row_band = int(top / 20)` on every
bbox-carrying item. -/
theorem colRowUpdate_row_band (bs : List ℚ) (i : Item) (bb : BBoxOut)
    (h : i.bbox = some bb) :
    (colRowUpdate bs i).attributes.row_band = some (bandOf bb) := by
  unfold colRowUpdate
  rw [h]

/-- The column / row-band pass is the identity on items without a bbox. -/
theorem colRowUpdate_of_no_bbox (bs : List ℚ) (i : Item) (h : i.bbox = none) :
    colRowUpdate bs i = i := by
  unfold colRowUpdate
  rw [h]

/-- With a nonempty per-page gap list, the detector is the reading-order pass
over the column / row-band pass. -/
theorem detectColumnsPage_eq_of_gaps (pageItems : List Item)
    (hg : pageGaps pageItems ≠ []) :
    detectColumnsPage pageItems = assignReadingOrder (updatedItems pageItems) := by
  have h5 : ¬ (pageItems.filter (fun i => i.bbox.isSome)).length < 5 :=
    fun h => hg (by rw [pageGaps, if_pos h])
  have hpg : pageGaps pageItems
      = gapsScan (List.insertionSort (· ≤ ·)
          ((pageItems.filter (fun i => i.bbox.isSome)).map itemLeft)) := by
    rw [pageGaps, if_neg h5]
  rw [detectColumnsPage, updatedItems, pageBoundaries]
  simp only [if_neg h5, ← hpg,
    if_neg (by simp [hg] : ¬ (pageGaps pageItems).isEmpty = true)]

/-- With an empty per-page gap list (including pages with fewer than 5
bbox-carrying items), the detector leaves the page untouched. -/
theorem detectColumnsPage_eq_of_no_gaps (pageItems : List Item)
    (hg : pageGaps pageItems = []) :
    detectColumnsPage pageItems = pageItems := by
  rw [detectColumnsPage]
  by_cases h5 : (pageItems.filter (fun i => i.bbox.isSome)).length < 5
  · rw [if_pos h5]
  · have hpg : pageGaps pageItems
        = gapsScan (List.insertionSort (· ≤ ·)
            ((pageItems.filter (fun i => i.bbox.isSome)).map itemLeft)) := by
      rw [pageGaps, if_neg h5]
    rw [if_neg h5, ← hpg, hg]
    simp

theorem assignReadingOrder_length (updated : List Item) :
    (assignReadingOrder updated).length = updated.length := by
  simp [assignReadingOrder]

/-- Elementwise description of the reading-order pass. -/
theorem assignReadingOrder_getElem (updated : List Item) (j : ℕ)
    (hj : j < updated.length) :
    (assignReadingOrder updated).get ⟨j, by rw [assignReadingOrder_length]; exact hj⟩ =
      (if (updated.get ⟨j, hj⟩).bbox.isSome then
        match (sortedPairs updated).findIdx? (fun s => s.1 == j) with
        | some k => { updated.get ⟨j, hj⟩ with attributes :=
            { (updated.get ⟨j, hj⟩).attributes with reading_order := some k } }
        | none => updated.get ⟨j, hj⟩
      else updated.get ⟨j, hj⟩) := by
  unfold assignReadingOrder
  simp only [List.get_eq_getElem, List.getElem_map, List.getElem_enum]

/-- The first components of the sorted pairs are pairwise distinct. -/
theorem sortedPairs_fst_nodup (updated : List Item) :
    ((sortedPairs updated).map Prod.fst).Nodup := by
  have h1 : (((updated.enum).filter (fun q => q.2.bbox.isSome)).map Prod.fst).Nodup := by
    apply List.Nodup.sublist (List.Sublist.map _ (List.filter_sublist _))
    rw [List.enum_map_fst]
    exact List.nodup_range _
  exact (((List.perm_insertionSort roLe _).map Prod.fst).symm).nodup h1

theorem sortedPairs_sorted (updated : List Item) :
    (sortedPairs updated).Sorted roLe :=
  List.sorted_insertionSort roLe _

/-- Every bbox-carrying position occurs among the sorted pairs. -/
theorem mem_sortedPairs (updated : List Item) (j : ℕ) (hj : j < updated.length)
    (hb : updated[j].bbox.isSome = true) :
    (j, updated[j]) ∈ sortedPairs updated := by
  rw [sortedPairs, List.Perm.mem_iff (List.perm_insertionSort roLe _), List.mem_filter]
  exact ⟨List.mem_enum_iff_getElem?.mpr (by simp [hj]), hb⟩

/-- Every sorted pair comes from a bbox-carrying position of the page. -/
theorem sortedPairs_mem_spec (updated : List Item) (q : ℕ × Item)
    (hq : q ∈ sortedPairs updated) :
    ∃ hj : q.1 < updated.length, updated[q.1] = q.2 ∧ q.2.bbox.isSome = true := by
  rw [sortedPairs, List.Perm.mem_iff (List.perm_insertionSort roLe _),
    List.mem_filter, List.mem_enum_iff_getElem?] at hq
  obtain ⟨hmem, hbb⟩ := hq
  have hj : q.1 < updated.length := by
    by_contra h
    rw [List.getElem?_eq_none (by omega)] at hmem
    exact Option.noConfusion hmem
  refine ⟨hj, ?_, hbb⟩
  rw [List.getElem?_eq_getElem hj] at hmem
  exact Option.some_inj.mp hmem

/-- In a pair list with pairwise-distinct first components, searching for the
first component of the `k`-th entry finds exactly position `k` (shifted by the
running offset). -/
theorem findIdx?_of_fst_nodup (L : List (ℕ × Item)) (hnd : (L.map Prod.fst).Nodup)
    (k : ℕ) (hk : k < L.length) (i : ℕ) :
    L.findIdx? (fun s => s.1 == (L.get ⟨k, hk⟩).1) i = some (i + k) := by
  induction L generalizing k i with
  | nil => exact absurd hk (by simp)
  | cons a t ih =>
    rw [List.map_cons, List.nodup_cons] at hnd
    cases k with
    | zero => simp [List.findIdx?_cons]
    | succ k =>
      have hk' : k < t.length := by simpa using hk
      have hget : ((a :: t).get ⟨k + 1, hk⟩) = t.get ⟨k, hk'⟩ := by simp
      have hne : (a.1 == (t.get ⟨k, hk'⟩).1) = false := by
        refine beq_eq_false_iff_ne.mpr ?_
        intro hcontra
        exact hnd.1 (hcontra ▸ List.mem_map_of_mem Prod.fst (List.get_mem t k hk'))
      rw [hget, List.findIdx?_cons, hne]
      simp only [Bool.false_eq_true, if_false]
      rw [ih hnd.2 k hk' (i + 1)]
      congr 1
      omega

/-- The reading-order pass never touches an item's bbox. -/
theorem assignReadingOrder_bbox (updated : List Item) (j : ℕ) (hj : j < updated.length) :
    ((assignReadingOrder updated).get ⟨j, by rw [assignReadingOrder_length]; exact hj⟩).bbox
      = (updated.get ⟨j, hj⟩).bbox := by
  rw [assignReadingOrder_getElem updated j hj]
  by_cases hb : (updated.get ⟨j, hj⟩).bbox.isSome
  · rw [if_pos hb]
    cases hf : (sortedPairs updated).findIdx? (fun s => s.1 == j) <;> simp [hf]
  · rw [if_neg hb]

/-- A bbox-carrying position of the updated page receives as `reading_order`
the index of its pair in the sorted pair list, all other fields unchanged. -/
theorem readingOrder_spec (updated : List Item) (j : ℕ) (hj : j < updated.length)
    (hb : (updated.get ⟨j, hj⟩).bbox.isSome = true) :
    ∃ (k : ℕ) (hk : k < (sortedPairs updated).length),
      (sortedPairs updated).get ⟨k, hk⟩ = (j, updated.get ⟨j, hj⟩) ∧
      (assignReadingOrder updated).get ⟨j, by rw [assignReadingOrder_length]; exact hj⟩
        = { updated.get ⟨j, hj⟩ with attributes :=
            { (updated.get ⟨j, hj⟩).attributes with reading_order := some k } } := by
  have hmem : (j, updated.get ⟨j, hj⟩) ∈ sortedPairs updated := by
    have := mem_sortedPairs updated j hj (by simpa using hb)
    simpa using this
  obtain ⟨⟨k, hk⟩, hget⟩ := List.mem_iff_get.mp hmem
  have hfind := findIdx?_of_fst_nodup (sortedPairs updated) (sortedPairs_fst_nodup updated) k hk 0
  rw [hget] at hfind
  simp only [Nat.zero_add] at hfind
  refine ⟨k, hk, hget, ?_⟩
  rw [assignReadingOrder_getElem updated j hj, if_pos hb]
  rw [hfind]

/-- Along the sorted pair list, the `k`-th pair's page position receives
reading order exactly `k`. -/
theorem readingOrder_rank (updated : List Item) (k : ℕ)
    (hk : k < (sortedPairs updated).length) :
    ∃ hj : ((sortedPairs updated).get ⟨k, hk⟩).1 < updated.length,
      ((assignReadingOrder updated).get ⟨((sortedPairs updated).get ⟨k, hk⟩).1,
          by rw [assignReadingOrder_length]; exact hj⟩).attributes.reading_order
        = some k := by
  obtain ⟨hj, hupd, hbb⟩ := sortedPairs_mem_spec updated
    ((sortedPairs updated).get ⟨k, hk⟩) (List.get_mem _ _ _)
  have hfind := findIdx?_of_fst_nodup (sortedPairs updated) (sortedPairs_fst_nodup updated) k hk 0
  simp only [Nat.zero_add] at hfind
  refine ⟨hj, ?_⟩
  rw [assignReadingOrder_getElem updated _ hj,
    if_pos (by rw [List.get_eq_getElem, hupd]; exact hbb)]
  rw [hfind]

/-- C5 counterexample fixture: the six-column-triggering items of the example
page, with the first item's bbox top at `-10` (a valid bottom-left box). -/
def exC5Items : List Item :=
  [mkItem 0 1 10 (-10) 12 (-20), mkItem 1 1 15 100 17 90, mkItem 2 1 20 100 22 90,
   mkItem 3 1 300 100 302 90, mkItem 4 1 305 100 307 90, mkItem 5 1 310 100 312 90]

/-- C5 counterexample: on the page above, the detector assigns the first item
`row_band = int(-10 / 20) = 0` (truncation toward zero), while
`floor(-10 / 20) = -1`; so `row_band` is not `floor(top / 20)` on items with
negative tops. -/
theorem row_band_counterexample :
    ((detectColumnsPage exC5Items).head?).map (fun i => i.attributes.row_band)
      = some (some 0) ∧
    Int.floor ((-10 : ℚ) / 20) = -1 ∧ (0 : ℤ) ≠ -1 := by
  refine ⟨?_, by norm_num, by decide⟩
  have hceil : (⌈-(1 / 2 : ℚ)⌉ : ℤ) = 0 := by norm_num
  norm_num [exC5Items, mkItem, detectColumnsPage, assignReadingOrder, sortedPairs,
    colRowUpdate, findCol, bandOf, pyInt, rowHeightEstimate, gapsScan, columnThreshold,
    itemLeft, List.insertionSort, List.orderedInsert, roLe, List.findIdx?_cons,
    Attrs.empty, List.enum, List.enumFrom, hceil]

/-- C5 (amended): on a page with detected columns every bbox-carrying item
receives `row_band = int(top / 20)` — truncation toward zero, which agrees
with `floor(top / 20)` only for non-negative tops — and `reading_order` equal
to its 0-based rank in the stable ascending `(row_band, column)` sort;
consequently reading order is strictly increasing along the sorted key, and
any item whose `(row_band, column)` key is lexicographically smaller than
another's (in particular every `row_band` 0 item against every `row_band` 1
item, whatever their columns) receives the smaller reading order.  Items
without a bbox are returned unchanged (so they carry no `reading_order`), and
a page without detected columns — including one with fewer than 5
bbox-carrying items — is returned entirely unchanged. -/
theorem reading_order_assignment :
    (∀ pageItems : List Item, pageGaps pageItems = [] →
      detectColumnsPage pageItems = pageItems)
    ∧
    (∀ pageItems : List Item, pageGaps pageItems ≠ [] →
      (∀ (j : ℕ) (hj : j < pageItems.length) (bb : BBoxOut),
        (pageItems.get ⟨j, hj⟩).bbox = some bb →
        ((detectColumnsPage pageItems)[j]?).map (fun i => i.attributes.row_band)
          = some (some (pyInt (bb.top / 20))))
      ∧
      (∀ (k : ℕ) (hk : k < (sortedPairs (updatedItems pageItems)).length),
        ((detectColumnsPage pageItems)[((sortedPairs (updatedItems pageItems)).get ⟨k, hk⟩).1]?).map
          (fun i => i.attributes.reading_order) = some (some k))
      ∧
      (∀ j l : ℕ, j < pageItems.length → l < pageItems.length →
        ∀ u v : Item,
        (detectColumnsPage pageItems)[j]? = some u →
        (detectColumnsPage pageItems)[l]? = some v →
        u.bbox.isSome = true → v.bbox.isSome = true →
        (u.attributes.row_band.getD 0 < v.attributes.row_band.getD 0 ∨
          (u.attributes.row_band.getD 0 = v.attributes.row_band.getD 0 ∧
            u.attributes.column.getD 0 < v.attributes.column.getD 0)) →
        ∃ ku kv : ℕ, u.attributes.reading_order = some ku ∧
          v.attributes.reading_order = some kv ∧ ku < kv)
      ∧
      (∀ (j : ℕ) (hj : j < pageItems.length),
        (pageItems.get ⟨j, hj⟩).bbox = none →
        (detectColumnsPage pageItems)[j]? = some (pageItems.get ⟨j, hj⟩))) := by
  refine ⟨fun P h => detectColumnsPage_eq_of_no_gaps P h, fun P hg => ?_⟩
  have hdet := detectColumnsPage_eq_of_gaps P hg
  have hlen_u : (updatedItems P).length = P.length := by simp [updatedItems]
  refine ⟨?_, ?_, ?_, ?_⟩
  · intro j hj bb hbb
    have hju : j < (updatedItems P).length := by rw [hlen_u]; exact hj
    have hub : (updatedItems P).get ⟨j, hju⟩
        = colRowUpdate (pageBoundaries P) (P.get ⟨j, hj⟩) := by
      simp [updatedItems]
    have hbsome : ((updatedItems P).get ⟨j, hju⟩).bbox.isSome = true := by
      rw [hub, colRowUpdate_bbox, hbb]
      rfl
    obtain ⟨k, hk, hsp, hrec⟩ := readingOrder_spec (updatedItems P) j hju hbsome
    rw [hdet, List.getElem?_eq_getElem (by rw [assignReadingOrder_length]; exact hju)]
    simp only [Option.map_some']
    simp only [List.get_eq_getElem] at hrec hub
    rw [hrec]
    simp only [Option.some_inj]
    rw [hub, colRowUpdate_row_band _ _ bb (by simpa using hbb)]
    simp [bandOf, rowHeightEstimate]
  · intro k hk
    obtain ⟨hj, hro⟩ := readingOrder_rank (updatedItems P) k hk
    rw [hdet, List.getElem?_eq_getElem (by rw [assignReadingOrder_length]; exact hj)]
    simp only [Option.map_some', Option.some_inj]
    simpa using hro
  · intro j l hj hl u v hu hv hbu hbv hlex
    have hju : j < (updatedItems P).length := by rw [hlen_u]; exact hj
    have hlu : l < (updatedItems P).length := by rw [hlen_u]; exact hl
    rw [hdet, List.getElem?_eq_getElem (by rw [assignReadingOrder_length]; exact hju)] at hu
    rw [hdet, List.getElem?_eq_getElem (by rw [assignReadingOrder_length]; exact hlu)] at hv
    have hu' := Option.some_inj.mp hu
    have hv' := Option.some_inj.mp hv
    have hbu' : ((updatedItems P).get ⟨j, hju⟩).bbox.isSome = true := by
      have := assignReadingOrder_bbox (updatedItems P) j hju
      simp only [List.get_eq_getElem] at this
      rw [← hu'] at hbu
      rw [this] at hbu
      exact hbu
    have hbv' : ((updatedItems P).get ⟨l, hlu⟩).bbox.isSome = true := by
      have := assignReadingOrder_bbox (updatedItems P) l hlu
      simp only [List.get_eq_getElem] at this
      rw [← hv'] at hbv
      rw [this] at hbv
      exact hbv
    obtain ⟨ku, hku, hspu, hrecu⟩ := readingOrder_spec (updatedItems P) j hju hbu'
    obtain ⟨kv, hkv, hspv, hrecv⟩ := readingOrder_spec (updatedItems P) l hlu hbv'
    simp only [List.get_eq_getElem] at hrecu hrecv
    have hueq : u = { (updatedItems P)[j] with attributes :=
        { (updatedItems P)[j].attributes with reading_order := some ku } } := by
      rw [← hu', hrecu]
    have hveq : v = { (updatedItems P)[l] with attributes :=
        { (updatedItems P)[l].attributes with reading_order := some kv } } := by
      rw [← hv', hrecv]
    refine ⟨ku, kv, by rw [hueq], by rw [hveq], ?_⟩
    have hlex' : ((updatedItems P)[j].attributes.row_band.getD 0
          < (updatedItems P)[l].attributes.row_band.getD 0 ∨
        ((updatedItems P)[j].attributes.row_band.getD 0
            = (updatedItems P)[l].attributes.row_band.getD 0 ∧
          (updatedItems P)[j].attributes.column.getD 0
            < (updatedItems P)[l].attributes.column.getD 0)) := by
      rw [hueq, hveq] at hlex
      exact hlex
    by_contra hno
    have hkvku : kv ≤ ku := by omega
    rcases Nat.lt_or_ge kv ku with hlt | hge
    · have hsorted := sortedPairs_sorted (updatedItems P)
      have hrel := hsorted.rel_get_of_lt (a := ⟨kv, hkv⟩) (b := ⟨ku, hku⟩) hlt
      rw [hspu, hspv] at hrel
      unfold roLe at hrel
      simp only at hrel
      simp only [List.get_eq_getElem] at hrel
      rcases hlex' with h1 | ⟨h1, h2⟩ <;> rcases hrel with h3 | ⟨h3, h4⟩ <;> omega
    · have hkeq : kv = ku := by omega
      subst hkeq
      rw [hspu] at hspv
      have hjl : j = l := congrArg Prod.fst hspv
      subst hjl
      rcases hlex' with h1 | ⟨h1, h2⟩ <;> omega
  · intro j hj hnone
    have hju : j < (updatedItems P).length := by rw [hlen_u]; exact hj
    have hub : (updatedItems P).get ⟨j, hju⟩ = P.get ⟨j, hj⟩ := by
      simp only [updatedItems, List.get_eq_getElem, List.getElem_map]
      exact colRowUpdate_of_no_bbox _ _ hnone
    have hbnone : ¬ ((updatedItems P).get ⟨j, hju⟩).bbox.isSome = true := by
      rw [hub, hnone]
      simp
    rw [hdet, List.getElem?_eq_getElem (by rw [assignReadingOrder_length]; exact hju)]
    have hgete := assignReadingOrder_getElem (updatedItems P) j hju
    rw [if_neg hbnone] at hgete
    simp only [List.get_eq_getElem] at hgete hub
    rw [hgete, hub]
    rfl

/-- Witness for `reading_order_assignment`: a one-item page passes through
unchanged, and on the six-item example page the first item receives
`row_band = int(100 / 20) = 5`. -/
theorem reading_order_assignment_witness :
    detectColumnsPage [mkItem 0 1 10 100 12 90] = [mkItem 0 1 10 100 12 90] ∧
    ((detectColumnsPage ex4Items)[0]?).map (fun i => i.attributes.row_band)
      = some (some 5) := by
  constructor
  · exact reading_order_assignment.1 [mkItem 0 1 10 100 12 90]
      (by norm_num [pageGaps, mkItem])
  · have h := (reading_order_assignment.2 ex4Items (by rw [ex4_gaps]; simp)).1 0
      (by norm_num [ex4Items]) ⟨10, 100, 12, 90, 2, 10, "TOPLEFT", none⟩
      (by norm_num [ex4Items, mkItem])
    rw [h]
    norm_num [pyInt]

/-! Infrastructure for the Text-Merger idempotence analysis. -/

/-- The prop-level reading of the merge decision. -/
theorem joinable_eq_true_iff (a b : Item) (thr : ℚ) :
    joinable a b thr = true ↔
      (b.page = a.page ∧ b.bbox.isSome = true ∧ a.bbox.isSome = true ∧
        |topD b - topD a| < 5 ∧ 0 ≤ leftD b - rightD a ∧ leftD b - rightD a < thr) := by
  simp [joinable, and_assoc]

/-- The concatenation of the walk's groups is the walked list. -/
theorem walkRev_flatten (thr : ℚ) :
    ∀ (rest : List Item) (lst : Item) (grev : List Item),
      (walkRev thr lst grev rest).flatten = (lst :: grev).reverse ++ rest
  | [], lst, grev => by simp [walkRev]
  | item :: rest, lst, grev => by
    rw [walkRev]
    by_cases h : joinable lst item thr = true
    · rw [if_pos h, walkRev_flatten thr rest item (lst :: grev)]
      simp
    · rw [if_neg h]
      simp [walkRev_flatten thr rest item []]

/-- Every group the walk emits is nonempty. -/
theorem walkRev_ne_nil (thr : ℚ) :
    ∀ (rest : List Item) (lst : Item) (grev : List Item),
      ∀ g ∈ walkRev thr lst grev rest, g ≠ []
  | [], lst, grev => by simp [walkRev]
  | item :: rest, lst, grev => by
    rw [walkRev]
    by_cases h : joinable lst item thr = true
    · rw [if_pos h]
      exact walkRev_ne_nil thr rest item (lst :: grev)
    · rw [if_neg h]
      intro g hg
      rcases List.mem_cons.mp hg with hg | hg
      · subst hg; simp
      · exact walkRev_ne_nil thr rest item [] g hg

/-- The walk's first group starts with the accumulated group's first member. -/
theorem walkRev_first_head (thr : ℚ) :
    ∀ (rest : List Item) (lst : Item) (grev : List Item),
      ∃ (g : List Item) (t : List (List Item)),
        walkRev thr lst grev rest = g :: t ∧ g.head? = ((lst :: grev).reverse).head?
  | [], lst, grev => ⟨_, _, rfl, rfl⟩
  | item :: rest, lst, grev => by
    rw [walkRev]
    by_cases h : joinable lst item thr = true
    · rw [if_pos h]
      obtain ⟨g, t, heq, hh⟩ := walkRev_first_head thr rest item (lst :: grev)
      refine ⟨g, t, heq, ?_⟩
      rw [hh]
      simp [List.head?_reverse]
    · rw [if_neg h]
      exact ⟨_, _, rfl, rfl⟩

/-- Every group the walk emits is consecutively joinable. -/
theorem walkRev_chain (thr : ℚ) :
    ∀ (rest : List Item) (lst : Item) (grev : List Item),
      List.Chain' (fun a b => joinable b a thr = true) (lst :: grev) →
      ∀ g ∈ walkRev thr lst grev rest,
        List.Chain' (fun a b => joinable a b thr = true) g
  | [], lst, grev => by
    intro hacc g hg
    simp only [walkRev, List.mem_singleton] at hg
    subst hg
    exact (List.chain'_reverse).mpr hacc
  | item :: rest, lst, grev => by
    intro hacc g hg
    rw [walkRev] at hg
    by_cases h : joinable lst item thr = true
    · rw [if_pos h] at hg
      exact walkRev_chain thr rest item (lst :: grev)
        ((List.chain'_cons').mpr ⟨by simpa using h, hacc⟩) g hg
    · rw [if_neg h] at hg
      rcases List.mem_cons.mp hg with hg | hg
      · subst hg
        exact (List.chain'_reverse).mpr hacc
      · exact walkRev_chain thr rest item [] (by simp) g hg

/-- The boundary between two adjacent groups: the first one's last member and
the second one's first member refuse to join. -/
def boundaryFail (thr : ℚ) (g₁ g₂ : List Item) : Prop :=
  ∀ x ∈ g₁.getLast?, ∀ y ∈ g₂.head?, joinable x y thr = false

/-- Adjacent groups emitted by the walk are separated by a failed join. -/
theorem walkRev_boundary (thr : ℚ) :
    ∀ (rest : List Item) (lst : Item) (grev : List Item),
      List.Chain' (boundaryFail thr) (walkRev thr lst grev rest)
  | [], lst, grev => by simp [walkRev]
  | item :: rest, lst, grev => by
    rw [walkRev]
    by_cases h : joinable lst item thr = true
    · rw [if_pos h]
      exact walkRev_boundary thr rest item (lst :: grev)
    · rw [if_neg h]
      rw [List.chain'_cons']
      refine ⟨?_, walkRev_boundary thr rest item []⟩
      intro g hg x hx y hy
      obtain ⟨g', t, heq, hh⟩ := walkRev_first_head thr rest item []
      rw [heq] at hg
      simp only [List.head?_cons, Option.mem_some_iff] at hg
      subst hg
      rw [List.getLast?_reverse] at hx
      simp only [List.head?_cons, Option.mem_some_iff] at hx
      subst hx
      rw [hh] at hy
      simp only [List.reverse_singleton, List.head?_cons, Option.mem_some_iff] at hy
      subst hy
      exact Bool.not_eq_true _ |>.mp h |> (fun hf => by simpa using hf)

/-- The groups partition the input list. -/
theorem splitGroups_flatten (thr : ℚ) (l : List Item) :
    (splitGroups thr l).flatten = l := by
  cases l with
  | nil => rfl
  | cons x xs => simpa using walkRev_flatten thr xs x []

theorem splitGroups_ne_nil (thr : ℚ) (l : List Item) :
    ∀ g ∈ splitGroups thr l, g ≠ [] := by
  cases l with
  | nil => simp [splitGroups]
  | cons x xs => exact walkRev_ne_nil thr xs x []

theorem splitGroups_chain (thr : ℚ) (l : List Item) :
    ∀ g ∈ splitGroups thr l,
      List.Chain' (fun a b => joinable a b thr = true) g := by
  cases l with
  | nil => simp [splitGroups]
  | cons x xs => exact walkRev_chain thr xs x [] (by simp)

theorem splitGroups_boundary (thr : ℚ) (l : List Item) :
    List.Chain' (boundaryFail thr) (splitGroups thr l) := by
  cases l with
  | nil => simp [splitGroups]
  | cons x xs => exact walkRev_boundary thr xs x []

/-- `Chain'` transfer along an implication that may use membership. -/
theorem chain'_imp_of_mem {α : Type _} {P Q : α → α → Prop} :
    ∀ {l : List α}, (∀ a ∈ l, ∀ b ∈ l, P a b → Q a b) →
      List.Chain' P l → List.Chain' Q l
  | [], _, _ => List.chain'_nil
  | [_], _, _ => by simp
  | a :: b :: t, himp, hch => by
    rw [List.chain'_cons] at hch ⊢
    refine ⟨himp a (by simp) b (by simp) hch.1, ?_⟩
    exact chain'_imp_of_mem
      (fun x hx y hy => himp x (List.mem_cons_of_mem a hx) y (List.mem_cons_of_mem a hy))
      hch.2

/-- Two chains combine pointwise. -/
theorem chain'_and {α : Type _} {P Q : α → α → Prop} :
    ∀ {l : List α}, List.Chain' P l → List.Chain' Q l →
      List.Chain' (fun a b => P a b ∧ Q a b) l
  | [], _, _ => List.chain'_nil
  | [_], _, _ => by simp
  | _ :: _ :: _, hp, hq => by
    rw [List.chain'_cons] at hp hq ⊢
    exact ⟨⟨hp.1, hq.1⟩, chain'_and hp.2 hq.2⟩

/-- Folding `min` from a lower bound of the list returns the bound. -/
theorem foldl_min_all (x : ℚ) :
    ∀ (xs : List ℚ), (∀ y ∈ xs, x ≤ y) → xs.foldl min x = x
  | [], _ => rfl
  | y :: ys, h => by
    rw [List.foldl_cons, min_eq_left (h y (by simp))]
    exact foldl_min_all x ys (fun z hz => h z (by simp [hz]))

/-- Folding `max` from an upper bound of the list returns the bound. -/
theorem foldl_max_all (x : ℚ) :
    ∀ (xs : List ℚ), (∀ y ∈ xs, y ≤ x) → xs.foldl max x = x
  | [], _ => rfl
  | y :: ys, h => by
    rw [List.foldl_cons, max_eq_left (h y (by simp))]
    exact foldl_max_all x ys (fun z hz => h z (by simp [hz]))

/-- Folding `max` over a nondecreasing list returns its last element. -/
theorem foldl_max_getLast (x : ℚ) :
    ∀ (xs : List ℚ), List.Chain' (· ≤ ·) (x :: xs) →
      xs.foldl max x = (x :: xs).getLast (by simp)
  | [], _ => rfl
  | y :: ys, h => by
    rw [List.chain'_cons] at h
    rw [List.foldl_cons, max_eq_right h.1, foldl_max_getLast y ys h.2]
    exact (List.getLast_cons (by simp)).symm

/-- Projections through `filterMap bbox` agree with the dictionary-default
projections on all-bbox lists. -/
theorem filterMap_bbox_map {f : BBoxOut → ℚ} {fD : Item → ℚ}
    (hagree : ∀ (x : Item) (bb : BBoxOut), x.bbox = some bb → f bb = fD x) :
    ∀ (g : List Item), (∀ x ∈ g, x.bbox.isSome = true) →
      (g.filterMap (fun i => i.bbox)).map f = g.map fD
  | [], _ => rfl
  | x :: t, h => by
    obtain ⟨bb, hbb⟩ := Option.isSome_iff_exists.mp (h x (by simp))
    simp only [List.filterMap_cons, hbb, List.map_cons]
    rw [hagree x bb hbb,
      filterMap_bbox_map hagree t (fun z hz => h z (by simp [hz]))]

/-- All members of a joinable chain share the first member's page. -/
theorem group_pages_eq (thr : ℚ) :
    ∀ (g : List Item) (hne : g ≠ []),
      List.Chain' (fun a b => joinable a b thr = true) g →
      ∀ x ∈ g, x.page = (g.head hne).page
  | [], hne, _ => absurd rfl hne
  | [a], _, _ => by simp
  | a :: b :: t, _, hch => by
    rw [List.chain'_cons] at hch
    have hba : b.page = a.page := ((joinable_eq_true_iff a b thr).mp hch.1).1
    intro x hx
    rcases List.mem_cons.mp hx with hx | hx
    · subst hx; rfl
    · have := group_pages_eq thr (b :: t) (by simp) hch.2 x hx
      simpa [this] using hba

/-- In a joinable chain of length at least two, every member carries a bbox. -/
theorem group_all_bbox (thr : ℚ) :
    ∀ (a b : Item) (t : List Item),
      List.Chain' (fun x y => joinable x y thr = true) (a :: b :: t) →
      ∀ x ∈ a :: b :: t, x.bbox.isSome = true
  | a, b, [], hch => by
    rw [List.chain'_cons] at hch
    have h := (joinable_eq_true_iff a b thr).mp hch.1
    intro x hx
    rcases List.mem_cons.mp hx with hx | hx
    · subst hx; exact h.2.2.1
    · simp only [List.mem_singleton] at hx
      subst hx; exact h.2.1
  | a, b, c :: t, hch => by
    rw [List.chain'_cons] at hch
    have h := (joinable_eq_true_iff a b thr).mp hch.1
    intro x hx
    rcases List.mem_cons.mp hx with hx | hx
    · subst hx; exact h.2.2.1
    · exact group_all_bbox thr b c t hch.2 x hx

instance : Inhabited Item :=
  ⟨⟨0, "", 0, "", none, 0, none, Attrs.empty⟩⟩

/-- The single item a nonempty group is emitted as. -/
def emitItem (g : List Item) : Item :=
  (emitGroup g).headD default

theorem emitGroup_eq_emitItem :
    ∀ (g : List Item), g ≠ [] → emitGroup g = [emitItem g]
  | [], h => absurd rfl h
  | [_], _ => rfl
  | _ :: _ :: _, _ => rfl

/-- Emission of nonempty groups, flattened, is the map of `emitItem`. -/
theorem flatten_map_emitGroup :
    ∀ (gs : List (List Item)), (∀ g ∈ gs, g ≠ []) →
      ((gs.map emitGroup).flatten) = gs.map emitItem
  | [], _ => rfl
  | g :: t, h => by
    simp only [List.map_cons, List.flatten_cons,
      emitGroup_eq_emitItem g (h g (by simp))]
    rw [flatten_map_emitGroup t (fun x hx => h x (by simp [hx]))]
    rfl

/-- `mergeKeyLe` depends only on the page, top and left of its arguments. -/
theorem mergeKeyLe_congr {a a' b b' : Item}
    (ha : a.page = a'.page ∧ topD a = topD a' ∧ leftD a = leftD a')
    (hb : b.page = b'.page ∧ topD b = topD b' ∧ leftD b = leftD b') :
    mergeKeyLe a b ↔ mergeKeyLe a' b' := by
  unfold mergeKeyLe
  rw [ha.1, ha.2.1, ha.2.2, hb.1, hb.2.1, hb.2.2]

/-- Same-page consequence of the merger's sort key: later items have lower or
equal tops. -/
theorem mergeKeyLe_top_le {a b : Item} (h : mergeKeyLe a b) (hpage : b.page = a.page) :
    topD b ≤ topD a := by
  unfold mergeKeyLe at h
  rcases h with h | ⟨-, h | ⟨h, -⟩⟩
  · omega
  · exact le_of_lt h
  · exact le_of_eq h.symm

/-- The item a group is emitted as: its page, top and left are the group
head's; its right edge is the group's last member's; bbox presence follows
the head (and the last member); the last member shares the head's page and
has a lower or equal top.  Requires the group to be consecutively joinable,
sorted by the merger's key, and to satisfy `left ≤ right` on every bbox. -/
theorem emitItem_facts (thr : ℚ) (g : List Item) (hne : g ≠ [])
    (hchain : List.Chain' (fun a b => joinable a b thr = true) g)
    (hsorted : List.Pairwise mergeKeyLe g)
    (hRL : ∀ x ∈ g, ∀ bb : BBoxOut, x.bbox = some bb → bb.left ≤ bb.right) :
    (emitItem g).page = (g.head hne).page ∧
    topD (emitItem g) = topD (g.head hne) ∧
    leftD (emitItem g) = leftD (g.head hne) ∧
    rightD (emitItem g) = rightD (g.getLast hne) ∧
    (emitItem g).bbox.isSome = (g.head hne).bbox.isSome ∧
    (g.getLast hne).bbox.isSome = (g.head hne).bbox.isSome ∧
    (g.getLast hne).page = (g.head hne).page ∧
    topD (g.getLast hne) ≤ topD (g.head hne) := by
  match g, hne with
  | [a], _ =>
    refine ⟨rfl, rfl, rfl, rfl, rfl, rfl, rfl, le_refl _⟩
  | a :: b :: t, _ =>
    have hall := group_all_bbox thr a b t hchain
    have hpages := group_pages_eq thr (a :: b :: t) (by simp) hchain
    have hRLD : ∀ x ∈ a :: b :: t, leftD x ≤ rightD x := by
      intro x hx
      obtain ⟨bb, hbb⟩ := Option.isSome_iff_exists.mp (hall x hx)
      have := hRL x hx bb hbb
      simpa [leftD, rightD, hbb] using this
    have htop : ∀ x ∈ b :: t, topD x ≤ topD a := by
      intro x hx
      have hr : mergeKeyLe a x := (List.pairwise_cons.mp hsorted).1 x hx
      exact mergeKeyLe_top_le hr (hpages x (List.mem_cons_of_mem a hx))
    have hleft : ∀ x ∈ b :: t, leftD a ≤ leftD x := by
      haveI : IsTrans Item (fun x y => leftD x ≤ leftD y) := ⟨fun _ _ _ => le_trans⟩
      have hchl : List.Chain' (fun x y => leftD x ≤ leftD y) (a :: b :: t) := by
        refine chain'_imp_of_mem (fun x hx y _ hxy => ?_) hchain
        have hj := (joinable_eq_true_iff x y thr).mp hxy
        have : rightD x ≤ leftD y := by linarith [hj.2.2.2.2.1]
        exact le_trans (hRLD x hx) this
      have := (List.chain'_iff_pairwise.mp hchl)
      exact (List.pairwise_cons.mp this).1
    have hright : List.Chain' (fun x y => rightD x ≤ rightD y) (a :: b :: t) := by
      refine chain'_imp_of_mem (fun x _ y hy hxy => ?_) hchain
      have hj := (joinable_eq_true_iff x y thr).mp hxy
      have : rightD x ≤ leftD y := by linarith [hj.2.2.2.2.1]
      exact le_trans this (hRLD y hy)
    have hlefts : ((a :: b :: t).filterMap (fun i => i.bbox)).map (fun bb => bb.left)
        = (a :: b :: t).map leftD := by
      refine filterMap_bbox_map (fun x bb hbb => ?_) _ hall
      simp [leftD, hbb]
    have hrights : ((a :: b :: t).filterMap (fun i => i.bbox)).map (fun bb => bb.right)
        = (a :: b :: t).map rightD := by
      refine filterMap_bbox_map (fun x bb hbb => ?_) _ hall
      simp [rightD, hbb]
    have htops : ((a :: b :: t).filterMap (fun i => i.bbox)).map (fun bb => bb.top)
        = (a :: b :: t).map topD := by
      refine filterMap_bbox_map (fun x bb hbb => ?_) _ hall
      simp [topD, hbb]
    have hmtop : pyMaxQ (((a :: b :: t).filterMap (fun i => i.bbox)).map (fun bb => bb.top))
        = topD a := by
      rw [htops, List.map_cons, pyMaxQ]
      exact foldl_max_all (topD a) _ (fun y hy => by
        obtain ⟨x, hx, hxy⟩ := List.mem_map.mp hy
        exact hxy ▸ htop x hx)
    have hmleft : pyMinQ (((a :: b :: t).filterMap (fun i => i.bbox)).map (fun bb => bb.left))
        = leftD a := by
      rw [hlefts, List.map_cons, pyMinQ]
      exact foldl_min_all (leftD a) _ (fun y hy => by
        obtain ⟨x, hx, hxy⟩ := List.mem_map.mp hy
        exact hxy ▸ hleft x hx)
    have hmright : pyMaxQ (((a :: b :: t).filterMap (fun i => i.bbox)).map (fun bb => bb.right))
        = rightD ((a :: b :: t).getLast (by simp)) := by
      rw [hrights, List.map_cons, pyMaxQ]
      have hchr : List.Chain' (· ≤ ·) (rightD a :: (b :: t).map rightD) := by
        have := (List.chain'_map rightD).mpr hright
        rwa [List.map_cons] at this
      rw [foldl_max_getLast _ _ hchr]
      have h1 : ((rightD a :: (b :: t).map rightD)).getLast (by simp)
          = ((a :: b :: t).map rightD).getLast (by simp) := by
        congr 1
      rw [h1, List.getLast_map]
    refine ⟨rfl, ?_, ?_, ?_, ?_, ?_, ?_, ?_⟩
    · exact hmtop
    · exact hmleft
    · exact hmright
    · exact (hall a (by simp)).symm
    · rw [hall ((a :: b :: t).getLast (by simp)) (List.getLast_mem _)]
      exact (hall a (by simp)).symm
    · exact hpages _ (List.getLast_mem _)
    · rcases List.mem_cons.mp (List.getLast_mem (l := a :: b :: t) (by simp)) with hx | hx
      · rw [hx]
        exact le_refl _
      · exact htop _ hx

/-- Transfer of a failed boundary join to the emitted items: if the first
group's last member and the second group's first member refuse to join, so do
the merged items (their pages, tops and left edges come from the group heads,
their right edges from the group tails, and `left ≤ right` keeps the
horizontal gap identical). -/
theorem emit_not_joinable (thr : ℚ) (g₁ g₂ : List Item)
    (h₁ne : g₁ ≠ []) (h₂ne : g₂ ≠ [])
    (h₁chain : List.Chain' (fun a b => joinable a b thr = true) g₁)
    (h₂chain : List.Chain' (fun a b => joinable a b thr = true) g₂)
    (h₁sorted : List.Pairwise mergeKeyLe g₁)
    (h₂sorted : List.Pairwise mergeKeyLe g₂)
    (hRL₁ : ∀ x ∈ g₁, ∀ bb : BBoxOut, x.bbox = some bb → bb.left ≤ bb.right)
    (hRL₂ : ∀ x ∈ g₂, ∀ bb : BBoxOut, x.bbox = some bb → bb.left ≤ bb.right)
    (hcross : ∀ x ∈ g₁, ∀ y ∈ g₂, mergeKeyLe x y)
    (hbound : joinable (g₁.getLast h₁ne) (g₂.head h₂ne) thr = false) :
    joinable (emitItem g₁) (emitItem g₂) thr = false := by
  obtain ⟨hp₁, ht₁, hl₁, hr₁, hb₁, hbl₁, hpl₁, htl₁⟩ :=
    emitItem_facts thr g₁ h₁ne h₁chain h₁sorted hRL₁
  obtain ⟨hp₂, ht₂, hl₂, hl2r, hb₂, hbl₂, hpl₂, htl₂⟩ :=
    emitItem_facts thr g₂ h₂ne h₂chain h₂sorted hRL₂
  rw [Bool.eq_false_iff] at hbound ⊢
  intro hj
  apply hbound
  rw [joinable_eq_true_iff] at hj ⊢
  obtain ⟨hjp, hjb2, hjb1, hjv, hjg0, hjgt⟩ := hj
  have hpage : (g₂.head h₂ne).page = (g₁.getLast h₁ne).page := by
    rw [hpl₁, ← hp₁, ← hp₂, hjp]
  refine ⟨hpage, ?_, ?_, ?_, ?_, ?_⟩
  · rw [← hb₂]
    exact hjb2
  · rw [hbl₁, ← hb₁]
    exact hjb1
  · have hc : mergeKeyLe (g₁.getLast h₁ne) (g₂.head h₂ne) :=
      hcross _ (List.getLast_mem h₁ne) _ (List.head_mem h₂ne)
    have h2le : topD (g₂.head h₂ne) ≤ topD (g₁.getLast h₁ne) :=
      mergeKeyLe_top_le hc hpage
    rw [ht₁, ht₂] at hjv
    rw [abs_lt] at hjv ⊢
    constructor <;> linarith [htl₁]
  · rw [hr₁, hl₂] at hjg0
    exact hjg0
  · rw [hr₁, hl₂] at hjgt
    exact hjgt

/-- Walking a consecutively-unjoinable list yields only singleton groups. -/
theorem walkRev_singletons (thr : ℚ) :
    ∀ (rest : List Item) (lst : Item),
      List.Chain' (fun a b => joinable a b thr = false) (lst :: rest) →
      walkRev thr lst [] rest = (lst :: rest).map (fun x => [x])
  | [], _, _ => rfl
  | item :: rest, lst, h => by
    rw [List.chain'_cons] at h
    rw [walkRev, if_neg (by simp [h.1]), walkRev_singletons thr rest item h.2]
    rfl

theorem flatten_map_single :
    ∀ (l : List Item), ((l.map (fun x => [x])).map emitGroup).flatten = l
  | [] => rfl
  | x :: t => by
    simp only [List.map_cons, List.flatten_cons]
    rw [flatten_map_single t]
    rfl

/-- On a list that is already sorted by the merger's key and has no joinable
adjacent pair, the merger is the identity. -/
theorem mergeNearbyText_of_sorted_unjoinable (thr : ℚ) (ys : List Item)
    (hsorted : List.Pairwise mergeKeyLe ys)
    (hchain : List.Chain' (fun a b => joinable a b thr = false) ys) :
    mergeNearbyText thr ys = ys := by
  cases ys with
  | nil => rfl
  | cons x xs =>
    rw [mergeNearbyText, if_neg (by simp)]
    rw [List.Sorted.insertionSort_eq hsorted]
    rw [show splitGroups thr (x :: xs) = walkRev thr x [] xs from rfl]
    rw [walkRev_singletons thr xs x hchain]
    exact flatten_map_single (x :: xs)

/-- Idempotence of the merger on inputs whose bboxes satisfy
`left ≤ right`. -/
theorem mergeNearbyText_idem (thr : ℚ) (items : List Item)
    (hRL : ∀ i ∈ items, ∀ bb : BBoxOut, i.bbox = some bb → bb.left ≤ bb.right) :
    mergeNearbyText thr (mergeNearbyText thr items) = mergeNearbyText thr items := by
  by_cases hni : items.isEmpty
  · have h1 : mergeNearbyText thr items = items := by rw [mergeNearbyText, if_pos hni]
    rw [h1, h1]
  · have hsort : List.Pairwise mergeKeyLe (List.insertionSort mergeKeyLe items) :=
      List.sorted_insertionSort mergeKeyLe items
    have hperm : (List.insertionSort mergeKeyLe items).Perm items :=
      List.perm_insertionSort mergeKeyLe items
    have hRLs : ∀ i ∈ List.insertionSort mergeKeyLe items,
        ∀ bb : BBoxOut, i.bbox = some bb → bb.left ≤ bb.right :=
      fun i hi => hRL i (hperm.mem_iff.mp hi)
    have hflat := splitGroups_flatten thr (List.insertionSort mergeKeyLe items)
    have hne := splitGroups_ne_nil thr (List.insertionSort mergeKeyLe items)
    have hchain := splitGroups_chain thr (List.insertionSort mergeKeyLe items)
    have hbound := splitGroups_boundary thr (List.insertionSort mergeKeyLe items)
    have hpw := List.pairwise_flatten.mp (hflat ▸ hsort)
    have hmem_s : ∀ g ∈ splitGroups thr (List.insertionSort mergeKeyLe items),
        ∀ x ∈ g, x ∈ List.insertionSort mergeKeyLe items := by
      intro g hg x hx
      rw [← hflat]
      exact List.mem_flatten.mpr ⟨g, hg, hx⟩
    have hout : mergeNearbyText thr items
        = (splitGroups thr (List.insertionSort mergeKeyLe items)).map emitItem := by
      rw [mergeNearbyText, if_neg hni]
      exact flatten_map_emitGroup _ hne
    have hpw_out : List.Pairwise mergeKeyLe
        ((splitGroups thr (List.insertionSort mergeKeyLe items)).map emitItem) := by
      rw [List.pairwise_map]
      refine List.Pairwise.imp_of_mem ?_ hpw.2
      intro g₁ g₂ hg₁ hg₂ hcross
      have f₁ := emitItem_facts thr g₁ (hne g₁ hg₁) (hchain g₁ hg₁) (hpw.1 g₁ hg₁)
        (fun x hx => hRLs x (hmem_s g₁ hg₁ x hx))
      have f₂ := emitItem_facts thr g₂ (hne g₂ hg₂) (hchain g₂ hg₂) (hpw.1 g₂ hg₂)
        (fun x hx => hRLs x (hmem_s g₂ hg₂ x hx))
      have hr := hcross (g₁.head (hne g₁ hg₁)) (List.head_mem _)
        (g₂.head (hne g₂ hg₂)) (List.head_mem _)
      exact (mergeKeyLe_congr ⟨f₁.1, f₁.2.1, f₁.2.2.1⟩ ⟨f₂.1, f₂.2.1, f₂.2.2.1⟩).mpr hr
    have hchain_out : List.Chain' (fun a b => joinable a b thr = false)
        ((splitGroups thr (List.insertionSort mergeKeyLe items)).map emitItem) := by
      rw [List.chain'_map]
      have hcomb := chain'_and hbound hpw.2.chain'
      refine chain'_imp_of_mem ?_ hcomb
      intro g₁ hg₁ g₂ hg₂ h
      obtain ⟨hbf, hcr⟩ := h
      refine emit_not_joinable thr g₁ g₂ (hne g₁ hg₁) (hne g₂ hg₂) (hchain _ hg₁)
        (hchain _ hg₂) (hpw.1 _ hg₁) (hpw.1 _ hg₂)
        (fun x hx => hRLs x (hmem_s _ hg₁ x hx))
        (fun x hx => hRLs x (hmem_s _ hg₂ x hx)) hcr ?_
      exact hbf _ (by rw [List.getLast?_eq_getLast _ (hne g₁ hg₁)]; rfl)
        _ (by rw [List.head?_eq_head (hne g₂ hg₂)]; rfl)
    rw [hout]
    exact mergeNearbyText_of_sorted_unjoinable thr _ hpw_out hchain_out

/-- First item of the non-idempotence example: page 1, box `[0, 60]`
horizontally, top 100. -/
def itA7 : Item :=
  ⟨0, "TextItem", 1, "a", some ⟨0, 100, 60, 90, 60, 10, "TOPLEFT", none⟩, 1,
    some 1, Attrs.empty⟩

/-- Second item: a degenerate box with `left = 60 > right = 10`. -/
def itB7 : Item :=
  ⟨1, "TextItem", 1, "b", some ⟨60, 100, 10, 90, -50, 10, "TOPLEFT", none⟩, 1,
    some 1, Attrs.empty⟩

/-- Third item: box `[70, 80]` horizontally. -/
def itF7 : Item :=
  ⟨2, "TextItem", 1, "c", some ⟨70, 100, 80, 90, 10, 10, "TOPLEFT", none⟩, 1,
    some 1, Attrs.empty⟩

def exC7 : List Item := [itA7, itB7, itF7]

/-- The first pass merges `itA7` and `itB7` (gap `60 - 60 = 0`), producing a
combined box reaching right edge 60; `itF7` does not join `itB7` (gap
`70 - 10 = 60 ≥ 20`). -/
def itM7 : Item :=
  { itA7 with content := "a b", bbox := some ⟨0, 100, 60, 90, 60, 10, "TOPLEFT", none⟩ }

/-- The second pass then merges the combined item with `itF7`
(gap `70 - 60 = 10 < 20`). -/
def itM7b : Item :=
  { itA7 with content := "a b c", bbox := some ⟨0, 100, 80, 90, 80, 10, "TOPLEFT", none⟩ }

/-- C7 counterexample: the Text Merger is not idempotent on arbitrary item
lists — re-running it on the already-merged output of `exC7` (which contains
a degenerate bbox with `right < left`) performs a further merge. -/
theorem merger_not_idempotent_counterexample :
    mergeNearby (mergeNearby exC7) ≠ mergeNearby exC7 := by
  have hint1 : String.intercalate " " ["a", "b"] = "a b" := by decide
  have hint2 : String.intercalate " " ["a b", "c"] = "a b c" := by decide
  have h1 : mergeNearby exC7 = [itM7, itF7] := by
    norm_num [mergeNearby, mergeNearbyText, List.insertionSort, List.orderedInsert,
      mergeKeyLe, topD, leftD, rightD, splitGroups, walkRev, joinable, emitGroup,
      mergeGroup1, pyMinQ, pyMaxQ, exC7, itA7, itB7, itF7, itM7, hint1,
      List.filterMap_cons]
  have h2 : mergeNearby [itM7, itF7] = [itM7b] := by
    norm_num [mergeNearby, mergeNearbyText, List.insertionSort, List.orderedInsert,
      mergeKeyLe, topD, leftD, rightD, splitGroups, walkRev, joinable, emitGroup,
      mergeGroup1, pyMinQ, pyMaxQ, itA7, itM7, itF7, itM7b, hint2,
      List.filterMap_cons]
  rw [h1, h2]
  simp

/-- C7 (amended): the Text Merger is idempotent on every item list whose
bboxes all satisfy `left ≤ right` (in particular on all extractor output,
whose boxes are validated); for arbitrary degenerate boxes a second run can
merge further. -/
theorem merger_idempotent (items : List Item)
    (hRL : ∀ i ∈ items, ∀ bb : BBoxOut, i.bbox = some bb → bb.left ≤ bb.right) :
    mergeNearby (mergeNearby items) = mergeNearby items :=
  mergeNearbyText_idem 20 items hRL

/-- Witness for `merger_idempotent` at a concrete two-item list. -/
theorem merger_idempotent_witness :
    mergeNearby (mergeNearby [itA7, itF7]) = mergeNearby [itA7, itF7] := by
  apply merger_idempotent
  intro i hi bb hbb
  rcases List.mem_cons.mp hi with h | h
  · subst h
    rw [show itA7.bbox = some ⟨0, 100, 60, 90, 60, 10, "TOPLEFT", none⟩ from rfl] at hbb
    injection hbb with h2
    subst h2
    norm_num
  · simp only [List.mem_singleton] at h
    subst h
    rw [show itF7.bbox = some ⟨70, 100, 80, 90, 10, 10, "TOPLEFT", none⟩ from rfl] at hbb
    injection hbb with h2
    subst h2
    norm_num

end Chonker3
